import Mathlib

/-!
Shallow embedding of the `jlevesy/envconfig` Go package (`src/env.go` plus the
`setter` sub-package).  Go's reflection-driven traversal is modelled by an
inductive type language (`GoType`) with struct bodies resolved through a name
environment (mirroring how `reflect.Type` lets cyclic type graphs exist), Go
values by the inductive `GoValue`, and the process environment by an ordered
association list (mirroring the order `os.Environ` yields).  Machine integers
appear in `strconv.ParseUint(_, 10, 64)` (modelled as a `Nat` bounded by
`2^64`) and in the `int(indexU64)` conversion (modelled as the signed 64-bit
reinterpretation `toSigned64`, for a 64-bit platform).  Functions whose Go
originals recurse through the (possibly cyclic) reflected type graph take an
explicit fuel argument; running out of fuel yields the distinguished error
`Err.outOfFuel`, which never arises at the fuel values used in concrete
statements.  Go panics (out-of-range `reflect.Value.Index`, `NumField` on a
non-struct, `Set` on an unaddressable value) are modelled by the
distinguished error `Err.panicked`.  The Go string helpers are re-implemented
structurally over character lists; on the ASCII data handled here they agree
with `strings.ToUpper`/`ToLower`/`HasPrefix`/`TrimPrefix`/`Split`.
-/

/-- Go `strings.ToUpper` (ASCII fragment). -/
def goToUpper (s : String) : String := ⟨s.data.map Char.toUpper⟩

/-- Go `strings.ToLower` (ASCII fragment). -/
def goToLower (s : String) : String := ⟨s.data.map Char.toLower⟩

/-- Go `strings.HasPrefix`. -/
def strHasPrefix (s pre : String) : Bool := pre.data.isPrefixOf s.data

/-- Go `strings.TrimPrefix s pre`. -/
def goTrimPrefix (s pre : String) : String :=
  if strHasPrefix s pre then ⟨s.data.drop pre.data.length⟩ else s

/-- Everything before the first occurrence of `sep` in the character list. -/
def firstSplitAux (sep : List Char) : List Char → List Char
  | [] => []
  | c :: rest => if sep.isPrefixOf (c :: rest) then [] else c :: firstSplitAux sep rest

/-- First component of Go `strings.Split s sep`.  For non-empty `sep` this is
the text before the leftmost occurrence of `sep` (the whole of `s` when `sep`
does not occur).  For `sep = ""` Go splits into runes, so the first component
is the first character; Go panics there when `s` is also empty, which is not
modelled — every statement below uses the separator `"_"` or assumes a
non-empty separator. -/
def goSplitFirst (s sep : String) : String :=
  if sep = "" then ⟨s.data.take 1⟩ else ⟨firstSplitAux sep.data s.data⟩

/-- Go `strconv.ParseUint(s, 10, 64)`: digits only, no sign, value must fit
in 64 bits (`none` models a returned error). -/
def goParseUint10 (s : String) : Option Nat :=
  if s = "" then none
  else if s.data.all (fun c => c.isDigit) then
    let v := s.data.foldl (fun a c => a * 10 + (c.toNat - 48)) 0
    if v < 2 ^ 64 then some v else none
  else none

/-- Go's `int(u)` conversion of a `uint64`, on a 64-bit platform: the signed
reinterpretation of the low 64 bits. -/
def toSigned64 (u : Nat) : Int :=
  if u < 2 ^ 63 then (u : Int) else (u : Int) - 2 ^ 64

/-- Character class used by the vendored tokenizer `github.com/fatih/camelcase`
(lower = 1, upper = 2, digit = 3, other = 4); ASCII fragment, which is all the
statements below exercise. -/
def charClass (c : Char) : Nat :=
  if c.isLower then 1 else if c.isUpper then 2 else if c.isDigit then 3 else 4

/-- Grouping of consecutive characters of equal class, as in the first loop of
`camelcase.Split`. -/
def groupByClass (s : List Char) : List (List Char) :=
  s.foldr
    (fun c acc =>
      match acc with
      | [] => [[c]]
      | [] :: gs => [c] :: gs
      | (d :: g) :: gs =>
          if charClass c = charClass d then (c :: d :: g) :: gs
          else [c] :: (d :: g) :: gs)
    []

/-- The fix-up loop of `camelcase.Split`, carried out pairwise on the current
group and the remaining groups: an upper-case run followed by a lower-case
run donates its last character to the following run (`"PDFL","oader"`
becomes `"PDF","Loader"`). -/
def fixUpperGo : List Char → List (List Char) → List (List Char)
  | cur, [] => [cur]
  | [], next :: rest => [] :: fixUpperGo next rest
  | a :: as, [] :: rest => (a :: as) :: fixUpperGo [] rest
  | a :: as, (b :: bs) :: rest =>
      if a.isUpper ∧ b.isLower then
        (a :: as).dropLast :: fixUpperGo ((a :: as).getLast (by simp) :: b :: bs) rest
      else (a :: as) :: fixUpperGo (b :: bs) rest

/-- The fix-up loop, on the whole group list (empty groups never arise from
`groupByClass`, so the defensive arms of `fixUpperGo` are unreachable). -/
def fixUpper : List (List Char) → List (List Char)
  | [] => []
  | g :: gs => fixUpperGo g gs

/-- The injected tokenizer: `camelcase.Split` (ASCII fragment), used by
`envVarFromPath` to split every path segment into words. -/
def camelSplit (s : String) : List String :=
  ((fixUpper (groupByClass s.data)).filter (fun g => g ≠ [])).map
    (fun g => String.mk g)

/-- Scalar and composite Go types reachable by the walker.  Struct bodies live
in a name environment (`Ctx.senv`), which is how the embedding represents the
cyclic type graphs `reflect` permits (`*T` inside `T`).  `iface` is an
interface type, `badKind` stands for the remaining unsupported kinds
(chan, func, invalid, unsafe-pointer); both carry the `reflect.Type.Name`
string used in error messages. -/
inductive GoType where
  | ptr (elem : GoType)
  | strukt (name : String)
  | slice (elem : GoType)
  | array (len : Nat) (elem : GoType)
  | mapT (key elem : GoType)
  | tString
  | tInt
  | tBool
  | iface (name : String)
  | badKind (name : String)
  deriving DecidableEq, Repr

/-- `reflect.StructField`: name, type, `Anonymous` flag, and the value of the
`envconfig` struct tag when present (`Tag.Lookup`). -/
structure StructField where
  name : String
  type : GoType
  anonymous : Bool
  tag : Option String
  deriving DecidableEq, Repr

/-- A Go value of the shapes the walker manipulates.  `vnilPtr` is a nil
pointer, `vnilMap` a nil map, `vinvalid` the zero value of unsupported kinds. -/
inductive GoValue where
  | vnilPtr
  | vptr (elem : GoValue)
  | vstruct (fields : List (String × GoValue))
  | vslice (elems : List GoValue)
  | varray (elems : List GoValue)
  | vnilMap
  | vmap (entries : List (GoValue × GoValue))
  | vstr (s : String)
  | vint (n : Int)
  | vbool (b : Bool)
  | vinvalid
  deriving Repr

/-- The errors `env.go` can produce.  Go reports them as formatted strings;
here each carries its payload structurally.  `outOfFuel` is a model artifact
(see the module comment), `panicked` models a reflect panic. -/
inductive Err where
  | recursiveType (fieldType : GoType) (fieldName : String)
  | depthExceeded
  | badIndexKey (key varName : String)
  | arrayBounds (key varName : String) (len : Nat)
  | assignBounds (index : Int) (len : Nat)
  | unsupportedType (name : String)
  | fieldNotFound (fieldName : String)
  | cannotSet
  | setterMissing (name : String)
  | setterFailed (msg : String)
  | parseUintErr (s : String)
  | panicked (msg : String)
  | outOfFuel
  deriving DecidableEq, Repr

/-- A registered setter (`setter.Setter`): parses a raw string and rewrites
the target slot; may fail. -/
def Setter : Type := String → GoValue → Except Err GoValue

/-- The loader state: the four `envConfig` fields (`prefix`, `separator`,
`setters`, `maxDepth`) together with the ambient collaborators the Go code
reaches implicitly — the reflected struct bodies (`senv`, for
`reflect.Type.Field`) and the process environment snapshot (`env`, an ordered
name/value list standing for `os.Environ` / `os.LookupEnv`). -/
structure Ctx where
  pfx : String
  separator : String
  setters : GoType → Option Setter
  maxDepth : Nat
  senv : String → List StructField
  env : List (String × String)

/-- `envValue`: a discovered raw string plus the path it was found at. -/
structure EnvValue where
  strValue : String
  path : List String
  deriving DecidableEq, Repr

/-- `path.popBack`: first segment plus remainder.  Go indexes `p[0]` and so
panics on an empty path; discovery never produces one, and the embedding
returns `("", [])` there. -/
def popBack (p : List String) : String × List String :=
  match p with
  | [] => ("", [])
  | [x] => (x, [])
  | x :: rest => (x, rest)

/-- `os.LookupEnv` over the snapshot. -/
def lookupEnv (env : List (String × String)) (name : String) : Option String :=
  (env.find? (fun p => p.1 = name)).map (fun p => p.2)

/-- `indirectedType`: resolve chained pointer indirection. -/
def indirectedType : GoType → GoType
  | .ptr elem => indirectedType elem
  | t => t

/-- `envVarFromPath`: prepend the prefix (when non-empty) as a leading path
segment, split every segment with the tokenizer, join with the separator and
upper-case. -/
def envVarFromPath (c : Ctx) (currentPath : List String) : String :=
  let currentPath := if c.pfx ≠ "" then c.pfx :: currentPath else currentPath
  let s := currentPath.foldl (fun acc word => acc ++ camelSplit word) []
  goToUpper (String.intercalate c.separator s)

/-- `envVarsWithPrefix`: the names of the environment entries whose name
starts with `pre` (note: `pre` itself, not `pre + separator`), in
environment order. -/
def envVarsWithPrefix (c : Ctx) (pre : String) : List String :=
  (c.env.map (fun p => p.1)).filter (fun nm => strHasPrefix nm pre)

/-- `nextLevelKeys`: for each variable name, strip `pre + separator` when it
is a prefix, keep the first separator-delimited token of what remains, and
re-attach `pre + separator`. -/
def nextLevelKeys (c : Ctx) (pre : String) (envVars : List String) : List String :=
  envVars.map (fun envVar =>
    pre ++ c.separator ++ goSplitFirst (goTrimPrefix envVar (pre ++ c.separator)) c.separator)

/-- `keyFromEnvVar`: the local token of `fullVar` under `pre`, lower-cased. -/
def keyFromEnvVar (c : Ctx) (fullVar pre : String) : String :=
  goToLower (goSplitFirst (goTrimPrefix fullVar (pre ++ c.separator)) c.separator)

/-- `unique`: de-duplicate keeping the first occurrence (the Go map collector
is modelled by list membership). -/
def uniqueAux (seen : List String) : List String → List String
  | [] => []
  | v :: rest => if v ∈ seen then uniqueAux seen rest else v :: uniqueAux (v :: seen) rest

/-- `unique` entry point. -/
def unique (l : List String) : List String := uniqueAux [] l

/-- `Kind() == reflect.Ptr`. -/
def isPtrKind : GoType → Bool
  | .ptr _ => true
  | _ => false

/-- `Kind() == reflect.Array || Kind() == reflect.Slice`: the container kinds
whose discovered keys must parse as integers. -/
def isIntIndexedKind : GoType → Bool
  | .array _ _ => true
  | .slice _ => true
  | _ => false

/-- `reflect.Type.Elem()` for the container kinds (for a map this is the
value type); identity elsewhere (Go would panic, but the walker only calls it
on containers and pointers). -/
def elemType : GoType → GoType
  | .ptr elem => elem
  | .slice elem => elem
  | .array _ elem => elem
  | .mapT _ elem => elem
  | t => t

/-- `loadValue`: point lookup of the key derived from the path; a present
variable yields one discovered value (the path is cloned in Go; values are
pure here). -/
def loadValue (c : Ctx) (fieldPath : List String) : Option EnvValue :=
  match lookupEnv c.env (envVarFromPath c fieldPath) with
  | none => none
  | some value => some ⟨value, fieldPath⟩

/-- The field loop of `analyzeStruct`: recursion over the field list replaces
the Go `for` loop, the accumulated result list and the early error returns
are the `Except` bind, and the recursive analyses of field types are the
injected `goStruct` / `goValue` (instantiated with `analyzeStruct` and
`analyzeValue` at one less fuel). -/
def analyzeFieldsGo (c : Ctx) (configType : GoType)
    (goStruct goValue : GoType → List String → Except Err (List EnvValue))
    (fields : List StructField) (currentPath : List String) :
    Except Err (List EnvValue) :=
  match fields with
  | [] => .ok []
  | field :: rest =>
    if isPtrKind field.type ∧ indirectedType field.type = configType then
      .error (.recursiveType field.type field.name)
    else if field.anonymous then
      match field.type with
      | .iface _ => analyzeFieldsGo c configType goStruct goValue rest currentPath
      | _ => do
        let values ← goStruct field.type currentPath
        let restValues ← analyzeFieldsGo c configType goStruct goValue rest currentPath
        .ok (values ++ restValues)
    else
      let fieldPath := currentPath ++ [field.name]
      match field.tag with
      | some t =>
        if t = "noexpand" then
          match loadValue c fieldPath with
          | some v => do
            let restValues ← analyzeFieldsGo c configType goStruct goValue rest currentPath
            .ok (v :: restValues)
          | none => analyzeFieldsGo c configType goStruct goValue rest currentPath
        else analyzeFieldsGo c configType goStruct goValue rest currentPath
      | none => do
        let values ← goValue field.type fieldPath
        let restValues ← analyzeFieldsGo c configType goStruct goValue rest currentPath
        .ok (values ++ restValues)

/-- The key loop of `analyzeIndexedType`: integer-key validation for arrays
and slices (with Go's `int(indexU64)` wrap in the array bound check), then
recursion into the element type at the extended path through the injected
`goValue`. -/
def analyzeIndexedKeysGo (c : Ctx) (valType : GoType) (fieldPath : List String) (pre : String)
    (goValue : GoType → List String → Except Err (List EnvValue))
    (keys : List String) : Except Err (List EnvValue) :=
  match keys with
  | [] => .ok []
  | varName :: rest =>
    let key := keyFromEnvVar c varName pre
    match goParseUint10 key, isIntIndexedKind valType with
    | none, true => .error (.badIndexKey key varName)
    | parsed, _ =>
      match valType, parsed with
      | .array n _, some index =>
        if toSigned64 index ≥ (n : Int) then .error (.arrayBounds key varName n)
        else do
          let keyValues ← goValue (elemType valType) (fieldPath ++ [key])
          let restValues ← analyzeIndexedKeysGo c valType fieldPath pre goValue rest
          .ok (keyValues ++ restValues)
      | _, _ => do
        let keyValues ← goValue (elemType valType) (fieldPath ++ [key])
        let restValues ← analyzeIndexedKeysGo c valType fieldPath pre goValue rest
        .ok (keyValues ++ restValues)

mutual

/-- `analyzeValue`: depth guard, then dispatch on the kind of the type.
`fuel` only bounds the unfolding of the cyclic reflected type graph. -/
def analyzeValue (fuel : Nat) (c : Ctx) (valType : GoType) (fieldPath : List String) :
    Except Err (List EnvValue) :=
  match fuel with
  | 0 => .error .outOfFuel
  | innerFuel + 1 =>
    if fieldPath.length > c.maxDepth then .error .depthExceeded
    else
      match valType with
      | .array n elem => analyzeIndexedType innerFuel c (.array n elem) fieldPath
      | .slice elem => analyzeIndexedType innerFuel c (.slice elem) fieldPath
      | .mapT k elem => analyzeIndexedType innerFuel c (.mapT k elem) fieldPath
      | .ptr elem => analyzeValue innerFuel c elem fieldPath
      | .strukt n => analyzeStruct innerFuel c (.strukt n) fieldPath
      | .iface n => .error (.unsupportedType n)
      | .badKind n => .error (.unsupportedType n)
      | _ =>
        match loadValue c fieldPath with
        | none => .ok []
        | some v => .ok [v]
  termination_by structural fuel

/-- `analyzeStruct`: walk the fields of a record type.  `reflect.NumField`
panics on a non-struct type (reachable in Go through an embedded pointer);
that panic is the `panicked` error here. -/
def analyzeStruct (fuel : Nat) (c : Ctx) (configType : GoType) (currentPath : List String) :
    Except Err (List EnvValue) :=
  match fuel with
  | 0 => .error .outOfFuel
  | innerFuel + 1 =>
    match configType with
    | .strukt n =>
        analyzeFieldsGo c (.strukt n)
          (fun t p => analyzeStruct innerFuel c t p)
          (fun t p => analyzeValue innerFuel c t p)
          (c.senv n) currentPath
    | _ => .error (.panicked "reflect: NumField of non-struct type")
  termination_by structural fuel

/-- `analyzeIndexedType`: derive the container's key prefix, enumerate and
de-duplicate one-level-deeper keys, then loop over them. -/
def analyzeIndexedType (fuel : Nat) (c : Ctx) (valType : GoType) (fieldPath : List String) :
    Except Err (List EnvValue) :=
  match fuel with
  | 0 => .error .outOfFuel
  | innerFuel + 1 =>
    let pre := envVarFromPath c fieldPath
    let vars := envVarsWithPrefix c pre
    let nextKeys := unique (nextLevelKeys c pre vars)
    analyzeIndexedKeysGo c valType fieldPath pre
      (fun t p => analyzeValue innerFuel c t p) nextKeys
  termination_by structural fuel

end

mutual

/-- Equality of Go values, as Go map-key comparison uses it. -/
def beqGoValue : GoValue → GoValue → Bool
  | .vnilPtr, .vnilPtr => true
  | .vptr a, .vptr b => beqGoValue a b
  | .vstruct a, .vstruct b => beqNamedList a b
  | .vslice a, .vslice b => beqValueList a b
  | .varray a, .varray b => beqValueList a b
  | .vnilMap, .vnilMap => true
  | .vmap a, .vmap b => beqPairList a b
  | .vstr a, .vstr b => a == b
  | .vint a, .vint b => a == b
  | .vbool a, .vbool b => a == b
  | .vinvalid, .vinvalid => true
  | _, _ => false

/-- Elementwise equality of value lists. -/
def beqValueList : List GoValue → List GoValue → Bool
  | [], [] => true
  | a :: as, b :: bs => beqGoValue a b && beqValueList as bs
  | _, _ => false

/-- Elementwise equality of named-field lists. -/
def beqNamedList : List (String × GoValue) → List (String × GoValue) → Bool
  | [], [] => true
  | (n, a) :: as, (m, b) :: bs => n == m && beqGoValue a b && beqNamedList as bs
  | _, _ => false

/-- Elementwise equality of key/value pair lists. -/
def beqPairList : List (GoValue × GoValue) → List (GoValue × GoValue) → Bool
  | [], [] => true
  | (k, a) :: as, (l, b) :: bs => beqGoValue k l && beqGoValue a b && beqPairList as bs
  | _, _ => false

end

/-- `reflect.New(t).Elem()` / the zero value of a type.  Fuel bounds the
unfolding of struct bodies through the name environment. -/
def zeroValue (fuel : Nat) (c : Ctx) (t : GoType) : GoValue :=
  match fuel with
  | 0 => .vinvalid
  | fuel + 1 =>
    match t with
    | .ptr _ => .vnilPtr
    | .strukt n => .vstruct ((c.senv n).map (fun f => (f.name, zeroValue fuel c f.type)))
    | .slice _ => .vslice []
    | .array n elem => .varray (List.replicate n (zeroValue fuel c elem))
    | .mapT _ _ => .vnilMap
    | .tString => .vstr ""
    | .tInt => .vint 0
    | .tBool => .vbool false
    | .iface _ => .vinvalid
    | .badKind _ => .vinvalid

/-- `reflect.Type.Name()`, as used in error messages. -/
def typeName : GoType → String
  | .strukt n => n
  | .tString => "string"
  | .tInt => "int"
  | .tBool => "bool"
  | .iface n => n
  | .badKind n => n
  | _ => ""

/-- `allocate`: resolve one level of pointer indirection, allocating a fresh
pointee when the pointer is nil (and, in that case, chasing further pointer
levels of the freshly allocated chain, which is the only place the Go code
recurses).  The Go function mutates through reflect references; the embedding
returns the inner value and type together with a rebuild function that
re-wraps an updated inner value into the pointer chain, plus the
addressability (`CanSet`) of the inner slot.  `reflect.Value.Set` on an
unaddressable nil pointer panics.  The `IsValid` guard of the Go code has no
counterpart: every `GoValue` is a valid reflect value. -/
def allocate (fuel : Nat) (c : Ctx) (canSet : Bool) (val : GoValue) (valType : GoType) :
    Except Err (GoValue × GoType × (GoValue → GoValue) × Bool) :=
  match fuel with
  | 0 => .error .outOfFuel
  | fuel + 1 =>
    match valType with
    | .ptr elem =>
      match val with
      | .vptr inner => .ok (inner, elem, fun x => .vptr x, true)
      | .vnilPtr =>
        if !canSet then .error (.panicked "reflect: Set using unaddressable value")
        else
          match elem with
          | .ptr inner => do
            let (iv, it, rb, cs) ← allocate fuel c true (zeroValue fuel c (.ptr inner)) (.ptr inner)
            .ok (iv, it, fun x => .vptr (rb x), cs)
          | _ => .ok (zeroValue fuel c elem, elem, fun x => .vptr x, true)
      | _ => .error (.panicked "pointer value expected")
    | _ => .ok (val, valType, id, canSet)

/-- `setValue`: `CanSet` guard, setter lookup by the slot's type, setter
application.  Addressability is threaded explicitly (`canSet`) since values
are pure here. -/
def setValue (c : Ctx) (canSet : Bool) (valType : GoType) (value : GoValue) (strValue : String) :
    Except Err GoValue :=
  if !canSet then .error .cannotSet
  else
    match c.setters valType with
    | none => .error (.setterMissing (typeName valType))
    | some st => st strValue value

mutual

/-- `reflect.Type.FieldByName`: a direct field of the struct, otherwise a
field promoted from an anonymous embedded struct (Go resolves promotion
breadth-first with ambiguity detection; this depth-first search agrees on the
shapes exercised below). -/
def fieldByName (fuel : Nat) (c : Ctx) (t : GoType) (name : String) : Option StructField :=
  match fuel with
  | 0 => none
  | innerFuel + 1 =>
    match t with
    | .strukt n =>
      let fields := c.senv n
      match fields.find? (fun f => f.name = name) with
      | some f => some f
      | none => fieldByNameEmbedded innerFuel c fields name
    | _ => none
  termination_by structural fuel

/-- Promoted-field search over the anonymous fields of a field list. -/
def fieldByNameEmbedded (fuel : Nat) (c : Ctx) (fields : List StructField) (name : String) :
    Option StructField :=
  match fuel with
  | 0 => none
  | innerFuel + 1 =>
    match fields with
    | [] => none
    | f :: rest =>
      if f.anonymous then
        match fieldByName innerFuel c (indirectedType f.type) name with
        | some g => some g
        | none => fieldByNameEmbedded innerFuel c rest name
      else fieldByNameEmbedded innerFuel c rest name
  termination_by structural fuel

end

mutual

/-- `reflect.Value.FieldByName`, read side: the current value of the (possibly
promoted) field.  Promotion through anonymous pointer embeds (which Go
dereferences when non-nil and panics on when nil) is not modelled; the
statements below only access direct and by-value-embedded fields. -/
def getFieldValue (fuel : Nat) (c : Ctx) (t : GoType) (v : GoValue) (name : String) :
    Option GoValue :=
  match fuel with
  | 0 => none
  | innerFuel + 1 =>
    match t, v with
    | .strukt n, .vstruct fvs =>
      let fields := c.senv n
      if (fields.find? (fun f => f.name = name)).isSome then
        (fvs.find? (fun p => p.1 = name)).map (fun p => p.2)
      else getFieldValuePromoted innerFuel c fields fvs name
    | _, _ => none
  termination_by structural fuel

/-- Promoted read over anonymous by-value struct embeds. -/
def getFieldValuePromoted (fuel : Nat) (c : Ctx) (fields : List StructField)
    (fvs : List (String × GoValue)) (name : String) : Option GoValue :=
  match fuel with
  | 0 => none
  | innerFuel + 1 =>
    match fields with
    | [] => none
    | f :: rest =>
      if f.anonymous then
        match f.type, (fvs.find? (fun p => p.1 = f.name)).map (fun p => p.2) with
        | .strukt m, some sub =>
          match getFieldValue innerFuel c (.strukt m) sub name with
          | some r => some r
          | none => getFieldValuePromoted innerFuel c rest fvs name
        | _, _ => getFieldValuePromoted innerFuel c rest fvs name
      else getFieldValuePromoted innerFuel c rest fvs name
  termination_by structural fuel

end

mutual

/-- `reflect.Value.FieldByName`, write side: replace the (possibly promoted)
field's value; `none` when the field cannot be reached. -/
def setFieldValue (fuel : Nat) (c : Ctx) (t : GoType) (v : GoValue) (name : String)
    (nv : GoValue) : Option GoValue :=
  match fuel with
  | 0 => none
  | innerFuel + 1 =>
    match t, v with
    | .strukt n, .vstruct fvs =>
      let fields := c.senv n
      if (fields.find? (fun f => f.name = name)).isSome then
        if (fvs.find? (fun p => p.1 = name)).isSome then
          some (.vstruct (fvs.map (fun p => if p.1 = name then (p.1, nv) else p)))
        else none
      else
        (setFieldValuePromoted innerFuel c fields fvs name nv).map (fun fvs' => .vstruct fvs')
    | _, _ => none
  termination_by structural fuel

/-- Promoted write over anonymous by-value struct embeds. -/
def setFieldValuePromoted (fuel : Nat) (c : Ctx) (fields : List StructField)
    (fvs : List (String × GoValue)) (name : String) (nv : GoValue) :
    Option (List (String × GoValue)) :=
  match fuel with
  | 0 => none
  | innerFuel + 1 =>
    match fields with
    | [] => none
    | f :: rest =>
      if f.anonymous then
        match f.type, (fvs.find? (fun p => p.1 = f.name)).map (fun p => p.2) with
        | .strukt m, some sub =>
          match setFieldValue innerFuel c (.strukt m) sub name nv with
          | some sub' => some (fvs.map (fun p => if p.1 = f.name then (p.1, sub') else p))
          | none => setFieldValuePromoted innerFuel c rest fvs name nv
        | _, _ => setFieldValuePromoted innerFuel c rest fvs name nv
      else setFieldValuePromoted innerFuel c rest fvs name nv
  termination_by structural fuel

end

/-- Association lookup in a map value, by Go value equality (`MapIndex`). -/
def mapLookup (entries : List (GoValue × GoValue)) (key : GoValue) : Option GoValue :=
  (entries.find? (fun p => beqGoValue p.1 key)).map (fun p => p.2)

/-- `SetMapIndex`: replace the entry for `key`, or add it at the end. -/
def mapStore (entries : List (GoValue × GoValue)) (key nv : GoValue) :
    List (GoValue × GoValue) :=
  if (entries.find? (fun p => beqGoValue p.1 key)).isSome then
    entries.map (fun p => if beqGoValue p.1 key then (p.1, nv) else p)
  else entries ++ [(key, nv)]

mutual

/-- `assignValue`: dispatch on the kind of the slot's type.  The result pair
is the (possibly partially) mutated value plus the error, mirroring that in Go
mutations performed before an error persist in the caller-owned instance.
`canSet` threads `reflect` addressability. -/
def assignValue (fuel : Nat) (c : Ctx) (canSet : Bool) (val : GoValue) (valType : GoType)
    (currentPath : List String) (strValue : String) : GoValue × Option Err :=
  match fuel with
  | 0 => (val, some .outOfFuel)
  | innerFuel + 1 =>
    match valType with
    | .ptr elem =>
      match allocate (innerFuel + 1) c canSet val (.ptr elem) with
      | .error e => (val, some e)
      | .ok (iv, it, rb, cs) =>
        let r := assignValue innerFuel c cs iv it currentPath strValue
        (rb r.1, r.2)
    | .strukt n => assignToStruct innerFuel c canSet val (.strukt n) currentPath strValue
    | .slice elem => assignToSlice innerFuel c canSet val (.slice elem) currentPath strValue
    | .array n elem => assignToArray innerFuel c canSet val (.array n elem) currentPath strValue
    | .mapT k elem => assignToMap innerFuel c canSet val (.mapT k elem) currentPath strValue
    | .iface nm => (val, some (.unsupportedType nm))
    | .badKind nm => (val, some (.unsupportedType nm))
    | t =>
      match setValue c canSet t val strValue with
      | .error e => (val, some e)
      | .ok nv => (nv, none)
  termination_by structural fuel

/-- `assignToStruct`: pop the field name, locate the (possibly promoted)
field, handle the `noexpand` tag (allocate through indirection, then set
directly), otherwise recurse with the remaining path. -/
def assignToStruct (fuel : Nat) (c : Ctx) (canSet : Bool) (val : GoValue) (valType : GoType)
    (currentPath : List String) (strValue : String) : GoValue × Option Err :=
  match fuel with
  | 0 => (val, some .outOfFuel)
  | innerFuel + 1 =>
    let (fieldName, rest) := popBack currentPath
    match fieldByName (innerFuel + 1) c valType fieldName with
    | none => (val, some (.fieldNotFound fieldName))
    | some structField =>
      match getFieldValue (innerFuel + 1) c valType val fieldName with
      | none => (val, some (.panicked "reflect: FieldByName of missing field"))
      | some fv =>
        if structField.tag = some "noexpand" then
          match allocate (innerFuel + 1) c canSet fv structField.type with
          | .error e => (val, some e)
          | .ok (iv, it, rb, cs) =>
            match setValue c cs it iv strValue with
            | .error e =>
              match setFieldValue (innerFuel + 1) c valType val fieldName (rb iv) with
              | some val' => (val', some e)
              | none => (val, some e)
            | .ok nv =>
              match setFieldValue (innerFuel + 1) c valType val fieldName (rb nv) with
              | some val' => (val', none)
              | none => (val, some (.panicked "reflect: FieldByName of missing field"))
        else
          let r := assignValue innerFuel c canSet fv structField.type rest strValue
          match setFieldValue (innerFuel + 1) c valType val fieldName r.1 with
          | some val' => (val', r.2)
          | none => (val, some (.panicked "reflect: FieldByName of missing field"))
  termination_by structural fuel

/-- `assignToSlice`: pop and parse the index (`int(ParseUint(...))`, with the
64-bit wrap), mutate in place below the current length, otherwise assign into
a fresh zero element and append it on success.  A negative wrapped index
reaches `slice.Index` and panics; the in-place branch's element is always
addressable, and appending (`slice.Set`) needs the slice slot itself to be
settable. -/
def assignToSlice (fuel : Nat) (c : Ctx) (canSet : Bool) (slice : GoValue) (sliceType : GoType)
    (currentPath : List String) (strValue : String) : GoValue × Option Err :=
  match fuel with
  | 0 => (slice, some .outOfFuel)
  | innerFuel + 1 =>
    let (key, rest) := popBack currentPath
    match goParseUint10 key with
    | none => (slice, some (.parseUintErr key))
    | some u =>
      let index : Int := toSigned64 u
      let es := match slice with | .vslice es => es | _ => []
      let elemT := elemType sliceType
      if index < (es.length : Int) then
        if index < 0 then (slice, some (.panicked "reflect: slice index out of range"))
        else
          let i := index.toNat
          let r := assignValue innerFuel c true (es.getD i .vinvalid) elemT rest strValue
          (.vslice (es.set i r.1), r.2)
      else
        let r := assignValue innerFuel c true (zeroValue (innerFuel + 1) c elemT) elemT rest strValue
        match r.2 with
        | some e => (slice, some e)
        | none =>
          if canSet then (.vslice (es ++ [r.1]), none)
          else (slice, some (.panicked "reflect: Set using unaddressable value"))
  termination_by structural fuel

/-- `assignToArray`: pop and parse the index; an index at or beyond the array
length is a bounds error, otherwise mutate the slot in place.  A negative
wrapped index reaches `array.Index` and panics. -/
def assignToArray (fuel : Nat) (c : Ctx) (canSet : Bool) (array : GoValue) (arrayType : GoType)
    (currentPath : List String) (strValue : String) : GoValue × Option Err :=
  match fuel with
  | 0 => (array, some .outOfFuel)
  | innerFuel + 1 =>
    let (key, rest) := popBack currentPath
    match goParseUint10 key with
    | none => (array, some (.parseUintErr key))
    | some u =>
      let index : Int := toSigned64 u
      let es := match array with | .varray es => es | _ => []
      let elemT := elemType arrayType
      if index ≥ (es.length : Int) then (array, some (.assignBounds index es.length))
      else if index < 0 then (array, some (.panicked "reflect: array index out of range"))
      else
        let i := index.toNat
        let r := assignValue innerFuel c canSet (es.getD i .vinvalid) elemT rest strValue
        (.varray (es.set i r.1), r.2)
  termination_by structural fuel

/-- `assignToMap`: pop the key segment, convert it through the registry into
the key type, allocate the map when nil (`mapValue.Set(MakeMap ...)`, which
panics on an unaddressable nil map), fetch or zero-initialise the element
(an element held by a Go map is not addressable, hence `canSet := false` for
an existing element), assign into it and store it back. -/
def assignToMap (fuel : Nat) (c : Ctx) (canSet : Bool) (mapValue : GoValue) (mapType : GoType)
    (currentPath : List String) (strValue : String) : GoValue × Option Err :=
  match fuel with
  | 0 => (mapValue, some .outOfFuel)
  | innerFuel + 1 =>
    let (keyString, rest) := popBack currentPath
    let keyT := match mapType with | .mapT k _ => k | _ => .badKind ""
    match setValue c true keyT (zeroValue (innerFuel + 1) c keyT) keyString with
    | .error e => (mapValue, some e)
    | .ok keyValue =>
      match mapValue, canSet with
      | .vnilMap, false => (mapValue, some (.panicked "reflect: Set using unaddressable value"))
      | .vnilMap, true => assignToMapEntries innerFuel c [] mapType keyValue rest strValue
      | .vmap entries, _ => assignToMapEntries innerFuel c entries mapType keyValue rest strValue
      | _, _ => (mapValue, some (.panicked "map value expected"))
  termination_by structural fuel

/-- Tail of `assignToMap`, once the entry list of the (allocated) map is at
hand. -/
def assignToMapEntries (fuel : Nat) (c : Ctx) (entries : List (GoValue × GoValue))
    (mapType : GoType) (keyValue : GoValue) (rest : List String) (strValue : String) :
    GoValue × Option Err :=
  match fuel with
  | 0 => (.vmap entries, some .outOfFuel)
  | innerFuel + 1 =>
    let elemT := elemType mapType
    let (elemValue, elemCanSet) :=
      match mapLookup entries keyValue with
      | some ev => (ev, false)
      | none => (zeroValue (innerFuel + 1) c elemT, true)
    let r := assignValue innerFuel c elemCanSet elemValue elemT rest strValue
    match r.2 with
    | some e => (.vmap entries, some e)
    | none => (.vmap (mapStore entries keyValue r.1), none)
  termination_by structural fuel

end

/-- `assignValues`: apply each discovered value in discovery order, stopping
at the first error (mutations already applied persist). -/
def assignValues (fuel : Nat) (c : Ctx) (configVal : GoValue) (configType : GoType)
    (values : List EnvValue) : GoValue × Option Err :=
  match values with
  | [] => (configVal, none)
  | v :: rest =>
    let r := assignValue fuel c true configVal configType v.path v.strValue
    match r.2 with
    | some e => (r.1, some e)
    | none => assignValues fuel c r.1 configType rest

/-- `Load`, after the pointer check and dereference (the model receives the
pointed-to struct value directly): discovery, then — only when discovery
succeeded — assignment.  The returned value is the final state of the
caller-owned instance. -/
def load (fuel : Nat) (c : Ctx) (configType : GoType) (configVal : GoValue) :
    GoValue × Option Err :=
  match analyzeStruct fuel c configType [] with
  | .error e => (configVal, some e)
  | .ok values => assignValues fuel c configVal configType values


/-! ## Shared fixtures and helper lemmas -/

/-- A setter for `string` fields, as `setter.LoadBasicTypes` registers it
(`value.SetString(strValue)`, which cannot fail). -/
def stringSetter : Setter := fun s _ => .ok (.vstr s)

/-- A registry holding only the `string` setter. -/
def stringOnlySetters : GoType → Option Setter := fun t =>
  match t with
  | .tString => some stringSetter
  | _ => none

theorem foldl_append_words (f : String → List String) :
    ∀ (l : List String) (acc : List String),
      l.foldl (fun acc word => acc ++ f word) acc = acc ++ (l.map f).flatten := by
  intro l
  induction l with
  | nil => intro acc; simp
  | cons a rest ih => intro acc; simp [List.foldl, ih]

theorem mem_uniqueAux (x : String) :
    ∀ (l seen : List String), x ∈ uniqueAux seen l ↔ (x ∈ l ∧ x ∉ seen) := by
  intro l
  induction l with
  | nil => intro seen; simp [uniqueAux]
  | cons v rest ih =>
    intro seen
    by_cases hv : v ∈ seen
    · simp only [uniqueAux, if_pos hv, ih seen, List.mem_cons]
      constructor
      · tauto
      · rintro ⟨h | h, hs⟩
        · exact absurd (h ▸ hv) hs
        · tauto
    · simp only [uniqueAux, if_neg hv, List.mem_cons, ih (v :: seen)]
      by_cases hxv : x = v
      · subst hxv; tauto
      · tauto

theorem nodup_uniqueAux :
    ∀ (l seen : List String), (uniqueAux seen l).Nodup := by
  intro l
  induction l with
  | nil => intro seen; simp [uniqueAux]
  | cons v rest ih =>
    intro seen
    by_cases hv : v ∈ seen
    · simpa [uniqueAux, if_pos hv] using ih seen
    · simp only [uniqueAux, if_neg hv, List.nodup_cons]
      refine ⟨?_, ih (v :: seen)⟩
      intro hmem
      exact ((mem_uniqueAux v rest (v :: seen)).mp hmem).2 (List.mem_cons_self v seen)

theorem sublist_uniqueAux :
    ∀ (l seen : List String), (uniqueAux seen l).Sublist l := by
  intro l
  induction l with
  | nil => intro seen; simp [uniqueAux]
  | cons v rest ih =>
    intro seen
    by_cases hv : v ∈ seen
    · simpa [uniqueAux, if_pos hv] using (ih seen).cons v
    · simpa [uniqueAux, if_neg hv] using (ih (v :: seen)).cons₂ v

theorem mem_unique (x : String) (l : List String) : x ∈ unique l ↔ x ∈ l := by
  simp [unique, mem_uniqueAux]

theorem nodup_unique (l : List String) : (unique l).Nodup := nodup_uniqueAux l []

theorem sublist_unique (l : List String) : (unique l).Sublist l := sublist_uniqueAux l []

theorem charClass_of_isDigit (c : Char) (h : c.isDigit = true) : charClass c = 3 := by
  have hd : 48 ≤ c.val.toNat ∧ c.val.toNat ≤ 57 := by
    simp only [Char.isDigit, decide_eq_true_eq, Bool.and_eq_true] at h
    exact ⟨h.1, h.2⟩
  have hl : c.isLower = false := by
    simp only [Char.isLower, decide_eq_true_eq, Bool.and_eq_true]
    by_contra hc
    simp only [Bool.not_eq_false, Bool.and_eq_true, decide_eq_true_eq] at hc
    have h1 : (97 : Nat) ≤ c.val.toNat := hc.1
    omega
  have hu : c.isUpper = false := by
    simp only [Char.isUpper, decide_eq_true_eq, Bool.and_eq_true]
    by_contra hc
    simp only [Bool.not_eq_false, Bool.and_eq_true, decide_eq_true_eq] at hc
    have h2 : (65 : Nat) ≤ c.val.toNat := hc.1
    omega
  simp [charClass, hl, hu, h]

theorem groupByClass_const (k : Nat) :
    ∀ (l : List Char), l ≠ [] → (∀ c ∈ l, charClass c = k) → groupByClass l = [l] := by
  intro l
  induction l with
  | nil => intro h; exact absurd rfl h
  | cons c rest ih =>
    intro _ hall
    cases rest with
    | nil => rfl
    | cons d rest' =>
      have hrec : groupByClass (d :: rest') = [d :: rest'] := by
        refine ih (by simp) ?_
        intro x hx
        exact hall x (List.mem_cons_of_mem _ hx)
      have hc : charClass c = k := hall c (List.mem_cons_self _ _)
      have hd : charClass d = k := hall d (List.mem_cons_of_mem _ (List.mem_cons_self _ _))
      show groupByClass (c :: d :: rest') = [c :: d :: rest']
      have hstep : groupByClass (c :: d :: rest') =
          (fun c acc =>
            match acc with
            | [] => [[c]]
            | [] :: gs => [c] :: gs
            | (d :: g) :: gs =>
                if charClass c = charClass d then (c :: d :: g) :: gs
                else [c] :: (d :: g) :: gs) c (groupByClass (d :: rest')) := rfl
      rw [hstep, hrec]
      simp [hc, hd]

theorem camelSplit_digits (t : String) (h1 : t ≠ "")
    (h2 : t.data.all (fun c => c.isDigit) = true) : camelSplit t = [t] := by
  have hne : t.data ≠ [] := by
    intro h
    apply h1
    cases t with
    | mk l => simp only at h; simp [h]
  have hgroup : groupByClass t.data = [t.data] := by
    refine groupByClass_const 3 t.data hne ?_
    intro c hc
    exact charClass_of_isDigit c (by simpa using List.all_eq_true.mp h2 c hc)
  unfold camelSplit
  rw [hgroup]
  have hfix : fixUpper [t.data] = [t.data] := by
    cases ht : t.data with
    | nil => exact absurd ht hne
    | cons a as => simp [fixUpper, fixUpperGo]
  rw [hfix]
  simp only [List.filter, hne, decide_not]
  have : (t.data ≠ []) = True := by simp [hne]
  simp [hne]

/-! ## Claim C1: the key-derivation formula -/

/-- The key formula exactly as claim C1 states it: the configured prefix is a
single leading component left untouched by the tokenizer, and only the path
segments pass through `WORDS`. -/
def specKeyClaimC1 (c : Ctx) (p : List String) : String :=
  goToUpper (String.intercalate c.separator
    ((if c.pfx = "" then [] else [c.pfx]) ++ (p.map camelSplit).flatten))

/-- The amended formula: the prefix (when non-empty) is prepended as one more
path segment, so it is tokenized exactly like every other segment. -/
def specKeyAmendedC1 (c : Ctx) (p : List String) : String :=
  goToUpper (String.intercalate c.separator
    ((((if c.pfx = "" then [] else [c.pfx]) ++ p).map camelSplit).flatten))

/-- A loader configured with a multi-word prefix. -/
def cexCtxC1 : Ctx :=
  { pfx := "MyApp", separator := "_", setters := stringOnlySetters, maxDepth := 10,
    senv := fun _ => [], env := [] }

/-- Claim C1 is false as stated: with prefix `MyApp`, separator `_` and the
structural path `[Name]`, the code derives `MY_APP_NAME` (the tokenizer also
splits the prefix), while the claimed formula yields `MYAPP_NAME`. -/
theorem c1_counterexample :
    envVarFromPath cexCtxC1 ["Name"] = "MY_APP_NAME" ∧
    specKeyClaimC1 cexCtxC1 ["Name"] = "MYAPP_NAME" ∧
    envVarFromPath cexCtxC1 ["Name"] ≠ specKeyClaimC1 cexCtxC1 ["Name"] := by
  refine ⟨rfl, rfl, ?_⟩
  decide

/-- Amended claim C1: the derived key is
`UPPER(SEP-join of WORDS over ([prefix when non-empty] ++ segments))` — the
prefix is prepended as a leading path segment and split by the tokenizer like
every other segment; a non-empty all-digit segment (a stringified sequence
index) passes through the tokenizer as exactly one unchanged token. -/
theorem c1_amended_key (c : Ctx) (p : List String) :
    envVarFromPath c p = specKeyAmendedC1 c p ∧
    (∀ t : String, t ≠ "" → t.data.all (fun ch => ch.isDigit) = true →
      camelSplit t = [t]) := by
  constructor
  · by_cases h : c.pfx = ""
    · simp [envVarFromPath, specKeyAmendedC1, h, foldl_append_words]
    · simp [envVarFromPath, specKeyAmendedC1, h, foldl_append_words]
  · intro t h1 h2
    exact camelSplit_digits t h1 h2

/-- Witness for the amended C1 at concrete inputs. -/
theorem c1_amended_key_witness :
    envVarFromPath cexCtxC1 ["Name"] = specKeyAmendedC1 cexCtxC1 ["Name"] ∧
    camelSplit "42" = ["42"] :=
  ⟨(c1_amended_key cexCtxC1 ["Name"]).1,
   (c1_amended_key cexCtxC1 ["Name"]).2 "42" (by decide) (by decide)⟩

/-! ## Claim C2: next-level key partitioning for containers -/

/-- The composition `unique (nextLevelKeys pre (envVarsWithPrefix pre))`, as
`analyzeIndexedType` computes the next-level keys of a container. -/
def discoveredNextKeys (c : Ctx) (pre : String) : List String :=
  unique (nextLevelKeys c pre (envVarsWithPrefix c pre))

/-- The partitioning exactly as claim C2 states it: only environment names
that start with `pre + separator` contribute, each with the token that
immediately follows that prefix. -/
def specNextKeysClaimC2 (c : Ctx) (pre : String) : List String :=
  unique (((c.env.map (fun p => p.1)).filter
      (fun nm => strHasPrefix nm (pre ++ c.separator))).map
    (fun nm => pre ++ c.separator ++
      goSplitFirst (goTrimPrefix nm (pre ++ c.separator)) c.separator))

/-- The amended partitioning: every environment name that starts with the
bare `pre` contributes; when the name extends `pre + separator` its following
token is taken, otherwise the whole remainder of the name is re-tokenized
from the start. -/
def specNextKeysAmendedC2 (c : Ctx) (pre : String) : List String :=
  unique (((c.env.map (fun p => p.1)).filter
      (fun nm => strHasPrefix nm pre)).map
    (fun nm => pre ++ c.separator ++
      goSplitFirst (goTrimPrefix nm (pre ++ c.separator)) c.separator))

/-- An environment whose single entry extends the container prefix `ITEMS`
without the separator. -/
def cexCtxC2 : Ctx :=
  { pfx := "", separator := "_", setters := stringOnlySetters, maxDepth := 10,
    senv := fun _ => [], env := [("ITEMSX_0", "v")] }

/-- Claim C2 is false as stated: the name `ITEMSX_0` does not start with
`ITEMS_`, yet it contributes the next-level key `ITEMS_ITEMSX` (the code
filters by the bare prefix `ITEMS` and the `TrimPrefix` is a no-op), while
the claimed partitioning contributes nothing. -/
theorem c2_counterexample :
    discoveredNextKeys cexCtxC2 "ITEMS" = ["ITEMS_ITEMSX"] ∧
    specNextKeysClaimC2 cexCtxC2 "ITEMS" = [] ∧
    discoveredNextKeys cexCtxC2 "ITEMS" ≠ specNextKeysClaimC2 cexCtxC2 "ITEMS" := by
  refine ⟨rfl, rfl, ?_⟩
  decide

/-- Amended claim C2: a container at prefix `P` draws a candidate from every
environment name starting with the bare `P` (the token after `P + separator`
when the name extends it, the first separator token of the whole remainder
otherwise); the `P + separator + token` keys are de-duplicated preserving
first-seen order (no duplicates, a subsequence of the enumeration, membership
exactly as described); the local token later extracted from each candidate is
lower-cased; and this is precisely the key list the container walker loops
over. -/
theorem c2_amended_partitioning (c : Ctx) (pre : String) :
    discoveredNextKeys c pre = specNextKeysAmendedC2 c pre ∧
    (∀ k, k ∈ discoveredNextKeys c pre ↔
      ∃ nm ∈ c.env.map (fun p => p.1), strHasPrefix nm pre = true ∧
        k = pre ++ c.separator ++
          goSplitFirst (goTrimPrefix nm (pre ++ c.separator)) c.separator) ∧
    (discoveredNextKeys c pre).Nodup ∧
    (discoveredNextKeys c pre).Sublist (nextLevelKeys c pre (envVarsWithPrefix c pre)) ∧
    (∀ fullVar, keyFromEnvVar c fullVar pre =
      goToLower (goSplitFirst (goTrimPrefix fullVar (pre ++ c.separator)) c.separator)) ∧
    (∀ fuel valType p, analyzeIndexedType (fuel + 1) c valType p =
      analyzeIndexedKeysGo c valType p (envVarFromPath c p)
        (fun t q => analyzeValue fuel c t q)
        (discoveredNextKeys c (envVarFromPath c p))) := by
  refine ⟨rfl, ?_, nodup_unique _, sublist_unique _, fun _ => rfl, fun _ _ _ => rfl⟩
  intro k
  rw [discoveredNextKeys, mem_unique]
  simp only [nextLevelKeys, envVarsWithPrefix, List.mem_map, List.mem_filter]
  constructor
  · rintro ⟨nm, ⟨hnm, hpre⟩, rfl⟩
    exact ⟨nm, hnm, hpre, rfl⟩
  · rintro ⟨nm, hnm, hpre, rfl⟩
    exact ⟨nm, ⟨hnm, hpre⟩, rfl⟩

/-! ## One-step views of the discovery loops -/

/-- The contribution of a single field in the `analyzeStruct` loop: a
recursive-type error, the embedded or tagged special cases, or the recursive
analysis of the field's type. -/
def analyzeOneField (c : Ctx) (configType : GoType)
    (goStruct goValue : GoType → List String → Except Err (List EnvValue))
    (field : StructField) (currentPath : List String) : Except Err (List EnvValue) :=
  if isPtrKind field.type ∧ indirectedType field.type = configType then
    .error (.recursiveType field.type field.name)
  else if field.anonymous then
    match field.type with
    | .iface _ => .ok []
    | _ => goStruct field.type currentPath
  else
    match field.tag with
    | some t =>
      if t = "noexpand" then .ok ((loadValue c (currentPath ++ [field.name])).toList)
      else .ok []
    | none => goValue field.type (currentPath ++ [field.name])

theorem analyzeFieldsGo_cons (c : Ctx) (ct : GoType)
    (gS gV : GoType → List String → Except Err (List EnvValue))
    (f : StructField) (rest : List StructField) (p : List String) :
    analyzeFieldsGo c ct gS gV (f :: rest) p =
      (analyzeOneField c ct gS gV f p).bind (fun vs =>
        (analyzeFieldsGo c ct gS gV rest p).bind (fun rs => .ok (vs ++ rs))) := by
  obtain ⟨fname, ftype, fanon, ftag⟩ := f
  by_cases hg : isPtrKind ftype = true ∧ indirectedType ftype = ct
  · simp [analyzeFieldsGo, analyzeOneField, hg, Except.bind]
  · cases fanon with
    | true =>
      cases ftype <;>
        (simp only [analyzeFieldsGo, analyzeOneField, if_neg hg, if_true]
         cases analyzeFieldsGo c ct gS gV rest p <;> simp [Except.bind, Bind.bind])
    | false =>
      cases ftag with
      | some t =>
        by_cases hne : t = "noexpand"
        · subst hne
          simp only [analyzeFieldsGo, analyzeOneField, if_neg hg, Bool.false_eq_true, if_false,
            if_true]
          cases loadValue c (p ++ [fname]) with
          | none =>
            cases analyzeFieldsGo c ct gS gV rest p <;>
              simp [Except.bind, Bind.bind, Option.toList]
          | some v =>
            cases analyzeFieldsGo c ct gS gV rest p <;>
              simp [Except.bind, Bind.bind, Option.toList]
        · simp only [analyzeFieldsGo, analyzeOneField, if_neg hg, Bool.false_eq_true, if_false,
            if_neg hne]
          cases analyzeFieldsGo c ct gS gV rest p <;>
            simp [Except.bind, Bind.bind]
      | none =>
        simp only [analyzeFieldsGo, analyzeOneField, if_neg hg, Bool.false_eq_true, if_false]
        rfl

theorem analyzeFieldsGo_append (c : Ctx) (ct : GoType)
    (gS gV : GoType → List String → Except Err (List EnvValue)) (p : List String) :
    ∀ (l₁ l₂ : List StructField),
      analyzeFieldsGo c ct gS gV (l₁ ++ l₂) p =
        (analyzeFieldsGo c ct gS gV l₁ p).bind (fun v1 =>
          (analyzeFieldsGo c ct gS gV l₂ p).bind (fun v2 => .ok (v1 ++ v2))) := by
  intro l₁
  induction l₁ with
  | nil =>
    intro l₂
    show analyzeFieldsGo c ct gS gV l₂ p = _
    cases analyzeFieldsGo c ct gS gV l₂ p <;> simp [analyzeFieldsGo, Except.bind]
  | cons f l₁' ih =>
    intro l₂
    rw [List.cons_append, analyzeFieldsGo_cons, analyzeFieldsGo_cons, ih l₂]
    cases analyzeOneField c ct gS gV f p <;>
      cases hl : analyzeFieldsGo c ct gS gV l₁' p <;>
        cases hr : analyzeFieldsGo c ct gS gV l₂ p <;>
          simp [Except.bind]

theorem analyzeFieldsGo_recursive_err (c : Ctx) (ct : GoType)
    (gS gV : GoType → List String → Except Err (List EnvValue)) (p : List String)
    (f : StructField) (hptr : isPtrKind f.type = true) (hind : indirectedType f.type = ct) :
    ∀ (l₁ l₂ : List StructField),
      ∃ e, analyzeFieldsGo c ct gS gV (l₁ ++ f :: l₂) p = .error e := by
  intro l₁
  induction l₁ with
  | nil =>
    intro l₂
    refine ⟨.recursiveType f.type f.name, ?_⟩
    rw [List.nil_append, analyzeFieldsGo_cons]
    simp [analyzeOneField, hptr, hind, Except.bind]
  | cons g l₁' ih =>
    intro l₂
    rw [List.cons_append, analyzeFieldsGo_cons]
    obtain ⟨e, he⟩ := ih l₂
    cases analyzeOneField c ct gS gV g p with
    | error e' => exact ⟨e', rfl⟩
    | ok vs => exact ⟨e, by simp [Except.bind, he]⟩

/-- The contribution of a single candidate key in the `analyzeIndexedType`
loop: integer-key validation for arrays and slices (with the `int(indexU64)`
wrap in the array bound check), then the recursive analysis of the element
type through the injected `goValue`. -/
def analyzeOneKey (c : Ctx) (valType : GoType) (fieldPath : List String) (pre : String)
    (goValue : GoType → List String → Except Err (List EnvValue))
    (varName : String) : Except Err (List EnvValue) :=
  let key := keyFromEnvVar c varName pre
  match goParseUint10 key, isIntIndexedKind valType with
  | none, true => .error (.badIndexKey key varName)
  | parsed, _ =>
    match valType, parsed with
    | .array n _, some index =>
      if toSigned64 index ≥ (n : Int) then .error (.arrayBounds key varName n)
      else goValue (elemType valType) (fieldPath ++ [key])
    | _, _ => goValue (elemType valType) (fieldPath ++ [key])

theorem analyzeIndexedKeysGo_cons (c : Ctx) (valType : GoType) (fieldPath : List String)
    (pre : String) (gV : GoType → List String → Except Err (List EnvValue))
    (varName : String) (rest : List String) :
    analyzeIndexedKeysGo c valType fieldPath pre gV (varName :: rest) =
      (analyzeOneKey c valType fieldPath pre gV varName).bind (fun vs =>
        (analyzeIndexedKeysGo c valType fieldPath pre gV rest).bind
          (fun rs => .ok (vs ++ rs))) := by
  cases hp : goParseUint10 (keyFromEnvVar c varName pre) with
  | none =>
    cases hk : isIntIndexedKind valType with
    | true =>
      cases valType <;> simp_all [analyzeIndexedKeysGo, analyzeOneKey, isIntIndexedKind,
        Except.bind]
    | false =>
      cases valType <;> simp_all [analyzeIndexedKeysGo, analyzeOneKey, isIntIndexedKind,
        Except.bind] <;> rfl
  | some u =>
    cases valType with
    | array n e =>
      by_cases hb : (n : Int) ≤ toSigned64 u
      · simp_all [analyzeIndexedKeysGo, analyzeOneKey, isIntIndexedKind, Except.bind, hb]
      · simp_all only [analyzeIndexedKeysGo, analyzeOneKey, isIntIndexedKind]
        simp only [if_false]
        cases gV (elemType (.array n e)) (fieldPath ++ [keyFromEnvVar c varName pre]) <;>
          cases analyzeIndexedKeysGo c (.array n e) fieldPath pre gV rest <;>
            simp [Bind.bind, Except.bind]
    | ptr e =>
      simp_all [analyzeIndexedKeysGo, analyzeOneKey, isIntIndexedKind, Except.bind]; rfl
    | strukt n =>
      simp_all [analyzeIndexedKeysGo, analyzeOneKey, isIntIndexedKind, Except.bind]; rfl
    | slice e =>
      simp_all [analyzeIndexedKeysGo, analyzeOneKey, isIntIndexedKind, Except.bind]; rfl
    | mapT k e =>
      simp_all [analyzeIndexedKeysGo, analyzeOneKey, isIntIndexedKind, Except.bind]; rfl
    | tString =>
      simp_all [analyzeIndexedKeysGo, analyzeOneKey, isIntIndexedKind, Except.bind]; rfl
    | tInt =>
      simp_all [analyzeIndexedKeysGo, analyzeOneKey, isIntIndexedKind, Except.bind]; rfl
    | tBool =>
      simp_all [analyzeIndexedKeysGo, analyzeOneKey, isIntIndexedKind, Except.bind]; rfl
    | iface n =>
      simp_all [analyzeIndexedKeysGo, analyzeOneKey, isIntIndexedKind, Except.bind]; rfl
    | badKind n =>
      simp_all [analyzeIndexedKeysGo, analyzeOneKey, isIntIndexedKind, Except.bind]; rfl

theorem analyzeIndexedKeysGo_append (c : Ctx) (valType : GoType) (fieldPath : List String)
    (pre : String) (gV : GoType → List String → Except Err (List EnvValue)) :
    ∀ (l₁ l₂ : List String),
      analyzeIndexedKeysGo c valType fieldPath pre gV (l₁ ++ l₂) =
        (analyzeIndexedKeysGo c valType fieldPath pre gV l₁).bind (fun v1 =>
          (analyzeIndexedKeysGo c valType fieldPath pre gV l₂).bind
            (fun v2 => .ok (v1 ++ v2))) := by
  intro l₁
  induction l₁ with
  | nil =>
    intro l₂
    show analyzeIndexedKeysGo c valType fieldPath pre gV l₂ = _
    cases analyzeIndexedKeysGo c valType fieldPath pre gV l₂ <;>
      simp [analyzeIndexedKeysGo, Except.bind]
  | cons k l₁' ih =>
    intro l₂
    rw [List.cons_append, analyzeIndexedKeysGo_cons, analyzeIndexedKeysGo_cons, ih l₂]
    cases analyzeOneKey c valType fieldPath pre gV k <;>
      cases analyzeIndexedKeysGo c valType fieldPath pre gV l₁' <;>
        cases analyzeIndexedKeysGo c valType fieldPath pre gV l₂ <;>
          simp [Except.bind]

theorem analyzeIndexedKeysGo_bad_err (c : Ctx) (valType : GoType) (fieldPath : List String)
    (pre : String) (gV : GoType → List String → Except Err (List EnvValue))
    (varName : String)
    (hbad : ∃ e, analyzeOneKey c valType fieldPath pre gV varName = .error e) :
    ∀ (l₁ l₂ : List String),
      ∃ e, analyzeIndexedKeysGo c valType fieldPath pre gV (l₁ ++ varName :: l₂) =
        .error e := by
  intro l₁
  induction l₁ with
  | nil =>
    intro l₂
    obtain ⟨e, he⟩ := hbad
    refine ⟨e, ?_⟩
    rw [List.nil_append, analyzeIndexedKeysGo_cons, he]
    rfl
  | cons k l₁' ih =>
    intro l₂
    rw [List.cons_append, analyzeIndexedKeysGo_cons]
    obtain ⟨e, he⟩ := ih l₂
    cases analyzeOneKey c valType fieldPath pre gV k with
    | error e' => exact ⟨e', rfl⟩
    | ok vs => exact ⟨e, by simp [Except.bind, he]⟩

/-! ## Claim C3: the recursive-type guard -/

/-- A record whose first field is an unsupported kind and whose second field
is a pointer back to the record itself. -/
def cexCtxC3 : Ctx :=
  { pfx := "", separator := "_", setters := stringOnlySetters, maxDepth := 10,
    senv := fun n =>
      if n = "T" then
        [⟨"A", .badKind "chanint", false, none⟩, ⟨"F", .ptr (.strukt "T"), false, none⟩]
      else [],
    env := [] }

/-- Claim C3 is false as stated: the record `T` contains the self-referential
indirection field `F`, yet discovery fails with the unsupported-type error of
the earlier field `A`, not with the recursive-type error naming `F`. -/
theorem c3_counterexample :
    analyzeStruct 10 cexCtxC3 (.strukt "T") [] = .error (.unsupportedType "chanint") ∧
    (Except.error (.unsupportedType "chanint") : Except Err (List EnvValue)) ≠
      .error (.recursiveType (.ptr (.strukt "T")) "F") := by
  refine ⟨rfl, ?_⟩
  intro h
  have h' : (Err.unsupportedType "chanint") = (Err.recursiveType (.ptr (.strukt "T")) "F") := by
    injection h
  exact absurd h' (by decide)

/-- Amended claim C3: for every record type containing a field whose type,
after fully resolving chained pointer indirection, is the record type being
walked, discovery fails for every environment (with some error); when every
field preceding the offending one analyzes successfully, the error is
precisely the recursive-type error carrying the offending field's type and
name.  The guard runs before the tag and embedding cases, so it fires even
for tagged or anonymous offending fields. -/
theorem c3_amended_recursive_guard (c : Ctx) (name : String) (fs₁ fs₂ : List StructField)
    (f : StructField) (path : List String) (fuel : Nat)
    (hsenv : c.senv name = fs₁ ++ f :: fs₂)
    (hptr : isPtrKind f.type = true)
    (hind : indirectedType f.type = .strukt name) :
    (∃ e, analyzeStruct fuel c (.strukt name) path = .error e) ∧
    (∀ (gS gV : GoType → List String → Except Err (List EnvValue)) vs,
      analyzeFieldsGo c (.strukt name) gS gV fs₁ path = .ok vs →
      analyzeFieldsGo c (.strukt name) gS gV (fs₁ ++ f :: fs₂) path =
        .error (.recursiveType f.type f.name)) ∧
    (∀ innerFuel vs, fuel = innerFuel + 1 →
      analyzeFieldsGo c (.strukt name)
        (fun t p => analyzeStruct innerFuel c t p)
        (fun t p => analyzeValue innerFuel c t p) fs₁ path = .ok vs →
      analyzeStruct fuel c (.strukt name) path = .error (.recursiveType f.type f.name)) := by
  have hfields : ∀ (gS gV : GoType → List String → Except Err (List EnvValue)) vs,
      analyzeFieldsGo c (.strukt name) gS gV fs₁ path = .ok vs →
      analyzeFieldsGo c (.strukt name) gS gV (fs₁ ++ f :: fs₂) path =
        .error (.recursiveType f.type f.name) := by
    intro gS gV vs hok
    rw [analyzeFieldsGo_append, hok, analyzeFieldsGo_cons]
    simp [analyzeOneField, hptr, hind, Except.bind]
  refine ⟨?_, hfields, ?_⟩
  · cases fuel with
    | zero => exact ⟨.outOfFuel, rfl⟩
    | succ innerFuel =>
      show ∃ e, analyzeFieldsGo c (.strukt name) _ _ (c.senv name) path = .error e
      rw [hsenv]
      exact analyzeFieldsGo_recursive_err c (.strukt name) _ _ path f hptr hind fs₁ fs₂
  · intro innerFuel vs hfuel hok
    subst hfuel
    show analyzeFieldsGo c (.strukt name) _ _ (c.senv name) path = _
    rw [hsenv]
    exact hfields _ _ vs hok

/-- A record whose only field is a pointer to the record itself. -/
def selfPtrCtx : Ctx :=
  { pfx := "", separator := "_", setters := stringOnlySetters, maxDepth := 10,
    senv := fun n => if n = "T" then [⟨"F", .ptr (.strukt "T"), false, none⟩] else [],
    env := [] }

/-- Witness for the amended C3 at a concrete self-referential record. -/
theorem c3_amended_recursive_guard_witness :
    analyzeStruct 10 selfPtrCtx (.strukt "T") [] =
      .error (.recursiveType (.ptr (.strukt "T")) "F") :=
  (c3_amended_recursive_guard selfPtrCtx "T" [] [] ⟨"F", .ptr (.strukt "T"), false, none⟩
    [] 10 rfl rfl rfl).2.2 9 [] rfl rfl

/-! ## Claims C4 and C5: depth guard and zero-mutation on discovery errors -/

theorem load_discovery_error (fuel : Nat) (c : Ctx) (t : GoType) (v : GoValue) (e : Err)
    (h : analyzeStruct fuel c t [] = .error e) : load fuel c t v = (v, some e) := by
  simp [load, h]

/-- Two records referencing each other through pointers (mutual recursion),
with the default maximum depth. -/
def mutualCtx : Ctx :=
  { pfx := "", separator := "_", setters := stringOnlySetters, maxDepth := 10,
    senv := fun n =>
      if n = "A" then [⟨"B", .ptr (.strukt "B"), false, none⟩]
      else if n = "B" then [⟨"A", .ptr (.strukt "A"), false, none⟩]
      else [],
    env := [] }

/-- Claim C4: the walker refuses any path longer than the configured maximum
depth, before looking at the type or the environment; in particular two
records referencing each other through indirection drive the path past the
limit and discovery (and Load, with no mutation) fails with the
depth-exceeded error. -/
theorem c4_depth_guard :
    (∀ (fuel : Nat) (c : Ctx) (valType : GoType) (p : List String),
      p.length > c.maxDepth →
      analyzeValue (fuel + 1) c valType p = .error .depthExceeded) ∧
    analyzeStruct 100 mutualCtx (.strukt "A") [] = .error .depthExceeded ∧
    (∀ v, load 100 mutualCtx (.strukt "A") v = (v, some .depthExceeded)) := by
  refine ⟨?_, rfl, ?_⟩
  · intro fuel c valType p h
    simp [analyzeValue, h]
  · intro v
    exact load_discovery_error 100 mutualCtx (.strukt "A") v .depthExceeded rfl

/-- Witness for C4's guard at a concrete over-long path. -/
theorem c4_depth_guard_witness :
    analyzeValue 4 mutualCtx .tString (List.replicate 11 "X") = .error .depthExceeded :=
  c4_depth_guard.1 3 mutualCtx .tString (List.replicate 11 "X") (by decide)

/-- A record holding a single channel-typed field, which discovery rejects. -/
def chanCtx : Ctx :=
  { pfx := "", separator := "_", setters := stringOnlySetters, maxDepth := 10,
    senv := fun n => if n = "T" then [⟨"C", .badKind "chanfield", false, none⟩] else [],
    env := [] }

/-- Claim C5: whenever discovery fails, Load returns exactly that error and
the target keeps the value it had — the assignment pass never starts. -/
theorem c5_discovery_error_zero_mutation (fuel : Nat) (c : Ctx) (t : GoType) (v : GoValue)
    (e : Err) (h : analyzeStruct fuel c t [] = .error e) :
    load fuel c t v = (v, some e) :=
  load_discovery_error fuel c t v e h

/-- Witness for C5 at a concrete discovery failure. -/
theorem c5_discovery_error_zero_mutation_witness :
    load 10 chanCtx (.strukt "T") (.vstr "keep") =
      (.vstr "keep", some (.unsupportedType "chanfield")) :=
  c5_discovery_error_zero_mutation 10 chanCtx (.strukt "T") (.vstr "keep")
    (.unsupportedType "chanfield") rfl

/-! ## Claims C6 and C10: variable-length sequence assignment -/

/-- The record `{ Items []string }`. -/
def itemsSenv : String → List StructField := fun n =>
  if n = "T" then [⟨"Items", .slice .tString, false, none⟩] else []

/-- A loader over `{ Items []string }` with the given environment. -/
def itemsCtx (env : List (String × String)) : Ctx :=
  { pfx := "", separator := "_", setters := stringOnlySetters, maxDepth := 10,
    senv := itemsSenv, env := env }

theorem popBack_cons (key : String) (rest : List String) :
    popBack (key :: rest) = (key, rest) := by
  cases rest <;> rfl

/-- Claim C6 is false as stated: with exactly the index keys 0, 1 and 2
present but enumerated in the order 2, 0, 1, Load produces a sequence of
length 2 (`["a", "b"]`), not of length 3 — the growth path appends at the old
length, so the out-of-order index 2 lands at slot 0 and is later overwritten. -/
theorem c6_counterexample :
    load 40 (itemsCtx [("ITEMS_2", "c"), ("ITEMS_0", "a"), ("ITEMS_1", "b")]) (.strukt "T")
        (zeroValue 40 (itemsCtx [("ITEMS_2", "c"), ("ITEMS_0", "a"), ("ITEMS_1", "b")])
          (.strukt "T")) =
      (.vstruct [("Items", .vslice [.vstr "a", .vstr "b"])], none) ∧
    lookupEnv [("ITEMS_2", "c"), ("ITEMS_0", "a"), ("ITEMS_1", "b")] "ITEMS_0" = some "a" ∧
    lookupEnv [("ITEMS_2", "c"), ("ITEMS_0", "a"), ("ITEMS_1", "b")] "ITEMS_1" = some "b" ∧
    lookupEnv [("ITEMS_2", "c"), ("ITEMS_0", "a"), ("ITEMS_1", "b")] "ITEMS_2" = some "c" ∧
    [GoValue.vstr "a", GoValue.vstr "b"].length = 2 ∧ (2 : Nat) ≠ 3 := by
  exact ⟨rfl, rfl, rfl, rfl, rfl, by decide⟩

/-- Amended claim C6: when the environment enumeration yields the index keys
in ascending order 0, 1, 2, Load produces a sequence of length 3 in index
order.  In general (for the signed-64-bit view of the parsed index):
assigning at an index equal to the current length appends exactly one new
element, and assigning at an index strictly below the current length
overwrites that slot in place without changing the length. -/
theorem c6_amended_slice_assignment :
    (load 40 (itemsCtx [("ITEMS_0", "a"), ("ITEMS_1", "b"), ("ITEMS_2", "c")]) (.strukt "T")
        (zeroValue 40 (itemsCtx [("ITEMS_0", "a"), ("ITEMS_1", "b"), ("ITEMS_2", "c")])
          (.strukt "T")) =
      (.vstruct [("Items", .vslice [.vstr "a", .vstr "b", .vstr "c"])], none)) ∧
    (∀ (fuel : Nat) (c : Ctx) (es : List GoValue) (elemT : GoType) (rest : List String)
        (key sv : String) (u : Nat) (v : GoValue),
      goParseUint10 key = some u →
      toSigned64 u = (es.length : Int) →
      assignValue fuel c true (zeroValue (fuel + 1) c elemT) elemT rest sv = (v, none) →
      assignToSlice (fuel + 1) c true (.vslice es) (.slice elemT) (key :: rest) sv =
          (.vslice (es ++ [v]), none) ∧
        (es ++ [v]).length = es.length + 1) ∧
    (∀ (fuel : Nat) (c : Ctx) (es : List GoValue) (elemT : GoType) (rest : List String)
        (key sv : String) (u : Nat) (v : GoValue),
      goParseUint10 key = some u →
      (0 : Int) ≤ toSigned64 u →
      toSigned64 u < (es.length : Int) →
      assignValue fuel c true (es.getD (toSigned64 u).toNat .vinvalid) elemT rest sv =
        (v, none) →
      assignToSlice (fuel + 1) c true (.vslice es) (.slice elemT) (key :: rest) sv =
          (.vslice (es.set (toSigned64 u).toNat v), none) ∧
        (es.set (toSigned64 u).toNat v).length = es.length) := by
  refine ⟨rfl, ?_, ?_⟩
  · intro fuel c es elemT rest key sv u v hp hi hassign
    refine ⟨?_, by simp⟩
    simp only [assignToSlice, popBack_cons, hp, hi, elemType]
    rw [if_neg (lt_irrefl (es.length : Int)), hassign]
    rfl
  · intro fuel c es elemT rest key sv u v hp h0 hlt hassign
    refine ⟨?_, by simp⟩
    simp only [assignToSlice, popBack_cons, hp, elemType]
    rw [if_pos hlt, if_neg (not_lt.mpr h0), hassign]

/-- Witness for the amended C6 at concrete inputs: appending at the current
length, and overwriting below it. -/
theorem c6_amended_slice_assignment_witness :
    (assignToSlice 6 (itemsCtx []) true (.vslice [.vstr "a"]) (.slice .tString) ["1"] "z" =
        (.vslice [.vstr "a", .vstr "z"], none) ∧
      ([GoValue.vstr "a"] ++ [GoValue.vstr "z"]).length = [GoValue.vstr "a"].length + 1) ∧
    (assignToSlice 6 (itemsCtx []) true (.vslice [.vstr "a", .vstr "b"]) (.slice .tString)
          ["0"] "z" =
        (.vslice [.vstr "z", .vstr "b"], none) ∧
      ([GoValue.vstr "a", GoValue.vstr "b"].set 0 (GoValue.vstr "z")).length =
        [GoValue.vstr "a", GoValue.vstr "b"].length) :=
  ⟨c6_amended_slice_assignment.2.1 5 (itemsCtx []) [.vstr "a"] .tString [] "1" "z" 1
      (.vstr "z") rfl (by decide) rfl,
   c6_amended_slice_assignment.2.2 5 (itemsCtx []) [.vstr "a", .vstr "b"] .tString [] "0" "z" 0
      (.vstr "z") rfl (by decide) (by decide) rfl⟩

/-- Claim C10 is false as stated: the path token `9223372036854775808`
(2^63) names an index strictly exceeding the length 0 of the slice, but no
element is created or appended — `int(indexU64)` wraps negative, the
`index < slice.Len()` test succeeds, and `slice.Index` panics. -/
theorem c10_counterexample :
    assignToSlice 10 (itemsCtx []) true (.vslice []) (.slice .tString)
        ["9223372036854775808"] "x" =
      (.vslice [], some (.panicked "reflect: slice index out of range")) ∧
    goParseUint10 "9223372036854775808" = some (2 ^ 63) ∧
    (0 : Nat) < 2 ^ 63 ∧
    ([] : List GoValue).length = 0 ∧ (0 : Nat) ≠ 1 := by
  exact ⟨rfl, rfl, by decide, rfl, by decide⟩

/-- Amended claim C10: when the parsed index, interpreted as a signed 64-bit
integer, strictly exceeds the slice's current length, exactly one zero-valued
element is created, assigned, and appended at the position equal to the old
length: the value is stored at a smaller index than the one named in the
path, and the length grows by exactly one (to old length + 1, which is at
most the named index, never to index + 1).  A token whose unsigned value is
at least 2^63 instead wraps negative and makes the reflect indexing panic. -/
theorem c10_amended_slice_growth (fuel : Nat) (c : Ctx) (es : List GoValue) (elemT : GoType)
    (rest : List String) (key sv : String) (u : Nat) (v : GoValue)
    (hp : goParseUint10 key = some u)
    (hgt : (es.length : Int) < toSigned64 u)
    (hassign : assignValue fuel c true (zeroValue (fuel + 1) c elemT) elemT rest sv =
      (v, none)) :
    assignToSlice (fuel + 1) c true (.vslice es) (.slice elemT) (key :: rest) sv =
        (.vslice (es ++ [v]), none) ∧
      (es ++ [v]).length = es.length + 1 ∧
      (es ++ [v]).getD es.length .vinvalid = v ∧
      ((es.length : Int) + 1) ≤ toSigned64 u := by
  refine ⟨?_, by simp, by simp, by omega⟩
  simp only [assignToSlice, popBack_cons, hp, elemType]
  rw [if_neg (not_lt.mpr (le_of_lt hgt)), hassign]
  rfl

/-- Witness for the amended C10: index 5 on an empty slice stores at slot 0. -/
theorem c10_amended_slice_growth_witness :
    assignToSlice 6 (itemsCtx []) true (.vslice []) (.slice .tString) ["5"] "x" =
        (.vslice [GoValue.vstr "x"], none) ∧
      (([] : List GoValue) ++ [GoValue.vstr "x"]).length = ([] : List GoValue).length + 1 ∧
      (([] : List GoValue) ++ [GoValue.vstr "x"]).getD ([] : List GoValue).length
          GoValue.vinvalid =
        GoValue.vstr "x" ∧
      ((([] : List GoValue).length : Int) + 1) ≤ toSigned64 5 :=
  c10_amended_slice_growth 5 (itemsCtx []) [] .tString [] "5" "x" 5 (.vstr "x") rfl
    (by decide) rfl

/-! ## Claim C7: fixed-length sequence bounds and index parsing -/

/-- The record `{ Arr [3]string }`. -/
def arrSenv : String → List StructField := fun n =>
  if n = "T" then [⟨"Arr", .array 3 .tString, false, none⟩] else []

/-- A loader over `{ Arr [3]string }` with the given environment. -/
def arrCtx (env : List (String × String)) : Ctx :=
  { pfx := "", separator := "_", setters := stringOnlySetters, maxDepth := 10,
    senv := arrSenv, env := env }

theorem analyzeOneKey_parse_fail (c : Ctx) (n : Nat) (elemT : GoType) (p : List String)
    (pre : String) (gV : GoType → List String → Except Err (List EnvValue))
    (varName : String) (hp : goParseUint10 (keyFromEnvVar c varName pre) = none) :
    analyzeOneKey c (.array n elemT) p pre gV varName =
      .error (.badIndexKey (keyFromEnvVar c varName pre) varName) := by
  simp [analyzeOneKey, hp, isIntIndexedKind]

theorem analyzeOneKey_array_bounds (c : Ctx) (n : Nat) (elemT : GoType) (p : List String)
    (pre : String) (gV : GoType → List String → Except Err (List EnvValue))
    (varName : String) (u : Nat)
    (hp : goParseUint10 (keyFromEnvVar c varName pre) = some u)
    (hb : (n : Int) ≤ toSigned64 u) :
    analyzeOneKey c (.array n elemT) p pre gV varName =
      .error (.arrayBounds (keyFromEnvVar c varName pre) varName n) := by
  simp [analyzeOneKey, hp, isIntIndexedKind, hb]

/-- Claim C7 is false as stated: for `{ Arr [3]string }`, the discovered
token `9223372036854775808` parses as the integer 2^63 ≥ 3, yet the load does
not abort with a bounds error — the discovery-time check compares the wrapped
`int(index)` (negative) with the length, passes, and the assignment pass then
panics on the negative reflect index. -/
theorem c7_counterexample :
    load 40 (arrCtx [("ARR_9223372036854775808", "x")]) (.strukt "T")
        (zeroValue 40 (arrCtx [("ARR_9223372036854775808", "x")]) (.strukt "T")) =
      (zeroValue 40 (arrCtx [("ARR_9223372036854775808", "x")]) (.strukt "T"),
        some (.panicked "reflect: array index out of range")) ∧
    goParseUint10 "9223372036854775808" = some (2 ^ 63) ∧
    (3 : Nat) ≤ 2 ^ 63 ∧
    (some (Err.panicked "reflect: array index out of range") : Option Err) ≠
      some (.arrayBounds "9223372036854775808" "ARR_9223372036854775808" 3) := by
  exact ⟨rfl, rfl, by decide, by decide⟩

/-- Amended claim C7: during discovery of a fixed-length sequence of declared
length N, once the keys before it have been processed successfully, a
candidate token that fails to parse as an unsigned 64-bit integer aborts with
the parse error naming it, and a token whose parsed value — interpreted as a
signed 64-bit integer — is at least N aborts with the bounds error; any such
offending token makes the key loop fail with some error (an earlier offending
key may supply its own error first); and a discovery error reaches the caller
of Load with zero mutation of the target. -/
theorem c7_amended_array_bounds :
    (∀ (c : Ctx) (n : Nat) (elemT : GoType) (p : List String) (pre : String)
        (gV : GoType → List String → Except Err (List EnvValue))
        (ks₁ : List String) (varName : String) (ks₂ : List String) (vs : List EnvValue),
      analyzeIndexedKeysGo c (.array n elemT) p pre gV ks₁ = .ok vs →
      goParseUint10 (keyFromEnvVar c varName pre) = none →
      analyzeIndexedKeysGo c (.array n elemT) p pre gV (ks₁ ++ varName :: ks₂) =
        .error (.badIndexKey (keyFromEnvVar c varName pre) varName)) ∧
    (∀ (c : Ctx) (n : Nat) (elemT : GoType) (p : List String) (pre : String)
        (gV : GoType → List String → Except Err (List EnvValue))
        (ks₁ : List String) (varName : String) (ks₂ : List String) (vs : List EnvValue)
        (u : Nat),
      analyzeIndexedKeysGo c (.array n elemT) p pre gV ks₁ = .ok vs →
      goParseUint10 (keyFromEnvVar c varName pre) = some u →
      (n : Int) ≤ toSigned64 u →
      analyzeIndexedKeysGo c (.array n elemT) p pre gV (ks₁ ++ varName :: ks₂) =
        .error (.arrayBounds (keyFromEnvVar c varName pre) varName n)) ∧
    (∀ (c : Ctx) (n : Nat) (elemT : GoType) (p : List String) (pre : String)
        (gV : GoType → List String → Except Err (List EnvValue))
        (ks₁ : List String) (varName : String) (ks₂ : List String),
      (goParseUint10 (keyFromEnvVar c varName pre) = none ∨
        ∃ u, goParseUint10 (keyFromEnvVar c varName pre) = some u ∧
          (n : Int) ≤ toSigned64 u) →
      ∃ e, analyzeIndexedKeysGo c (.array n elemT) p pre gV (ks₁ ++ varName :: ks₂) =
        .error e) ∧
    (∀ (fuel : Nat) (c : Ctx) (t : GoType) (v : GoValue) (e : Err),
      analyzeStruct fuel c t [] = .error e → load fuel c t v = (v, some e)) := by
  refine ⟨?_, ?_, ?_, fun fuel c t v e h => load_discovery_error fuel c t v e h⟩
  · intro c n elemT p pre gV ks₁ varName ks₂ vs hok hp
    rw [analyzeIndexedKeysGo_append, hok, analyzeIndexedKeysGo_cons,
      analyzeOneKey_parse_fail c n elemT p pre gV varName hp]
    rfl
  · intro c n elemT p pre gV ks₁ varName ks₂ vs u hok hp hb
    rw [analyzeIndexedKeysGo_append, hok, analyzeIndexedKeysGo_cons,
      analyzeOneKey_array_bounds c n elemT p pre gV varName u hp hb]
    rfl
  · intro c n elemT p pre gV ks₁ varName ks₂ hbad
    refine analyzeIndexedKeysGo_bad_err c (.array n elemT) p pre gV varName ?_ ks₁ ks₂
    rcases hbad with hp | ⟨u, hp, hb⟩
    · exact ⟨_, analyzeOneKey_parse_fail c n elemT p pre gV varName hp⟩
    · exact ⟨_, analyzeOneKey_array_bounds c n elemT p pre gV varName u hp hb⟩

/-- Witness for the amended C7: a non-integer token and an in-range-exceeding
token on `[3]string`, plus the discovery-time abort reaching Load unchanged. -/
theorem c7_amended_array_bounds_witness :
    analyzeIndexedKeysGo (arrCtx []) (.array 3 .tString) ["Arr"] "ARR"
        (fun t q => analyzeValue 5 (arrCtx []) t q) ["ARR_ABC"] =
      .error (.badIndexKey (keyFromEnvVar (arrCtx []) "ARR_ABC" "ARR") "ARR_ABC") ∧
    analyzeIndexedKeysGo (arrCtx []) (.array 3 .tString) ["Arr"] "ARR"
        (fun t q => analyzeValue 5 (arrCtx []) t q) ["ARR_5"] =
      .error (.arrayBounds (keyFromEnvVar (arrCtx []) "ARR_5" "ARR") "ARR_5" 3) ∧
    load 40 (arrCtx [("ARR_5", "x")]) (.strukt "T") (.vstr "keep") =
      (.vstr "keep", some (.arrayBounds "5" "ARR_5" 3)) :=
  ⟨c7_amended_array_bounds.1 (arrCtx []) 3 .tString ["Arr"] "ARR"
      (fun t q => analyzeValue 5 (arrCtx []) t q) [] "ARR_ABC" [] [] rfl rfl,
   c7_amended_array_bounds.2.1 (arrCtx []) 3 .tString ["Arr"] "ARR"
      (fun t q => analyzeValue 5 (arrCtx []) t q) [] "ARR_5" [] [] 5 rfl rfl (by decide),
   c7_amended_array_bounds.2.2.2 40 (arrCtx [("ARR_5", "x")]) (.strukt "T") (.vstr "keep")
      (.arrayBounds "5" "ARR_5" 3) rfl⟩

/-! ## Claim C9: fields tagged with an unknown envconfig value -/

/-- The current value of a top-level field of a struct value. -/
def structLookup (v : GoValue) (fname : String) : Option GoValue :=
  match v with
  | .vstruct fvs => (fvs.find? (fun p => p.1 = fname)).map (fun p => p.2)
  | _ => none

theorem find_assoc_update_ne (g fname : String) (nv : GoValue) (hne : g ≠ fname) :
    ∀ (fvs : List (String × GoValue)),
      ((fvs.map (fun p => if p.1 = g then (p.1, nv) else p)).find?
          (fun p => p.1 = fname)).map (fun p => p.2) =
        (fvs.find? (fun p => p.1 = fname)).map (fun p => p.2) := by
  intro fvs
  induction fvs with
  | nil => rfl
  | cons p rest ih =>
    obtain ⟨pn, pv⟩ := p
    simp only [List.map_cons]
    by_cases hp : pn = g
    · have hpf : ¬(pn = fname) := fun h => hne (hp ▸ h)
      rw [if_pos (show (pn, pv).1 = g from hp)]
      rw [List.find?_cons_of_neg _ (by simpa using hpf),
        List.find?_cons_of_neg _ (by simpa using hpf)]
      exact ih
    · rw [if_neg (show ¬(pn, pv).1 = g from hp)]
      by_cases hpf : pn = fname
      · rw [List.find?_cons_of_pos _ (by simpa using hpf),
          List.find?_cons_of_pos _ (by simpa using hpf)]
      · rw [List.find?_cons_of_neg _ (by simpa using hpf),
          List.find?_cons_of_neg _ (by simpa using hpf)]
        exact ih

theorem structLookup_setFieldValue_ne (c : Ctx) (fname : String) :
    ∀ (fuel : Nat),
      (∀ (name : String) (v : GoValue) (g : String) (nv : GoValue) (v' : GoValue),
        g ≠ fname →
        (∀ a ∈ c.senv name, a.anonymous = true → a.name ≠ fname) →
        setFieldValue fuel c (.strukt name) v g nv = some v' →
        structLookup v' fname = structLookup v fname) ∧
      (∀ (fields : List StructField) (fvs : List (String × GoValue)) (g : String)
          (nv : GoValue) (r : List (String × GoValue)),
        g ≠ fname →
        (∀ a ∈ fields, a.anonymous = true → a.name ≠ fname) →
        setFieldValuePromoted fuel c fields fvs g nv = some r →
        ((r.find? (fun p => p.1 = fname)).map (fun p => p.2)) =
          ((fvs.find? (fun p => p.1 = fname)).map (fun p => p.2))) := by
  intro fuel
  induction fuel with
  | zero =>
    constructor
    · intro name v g nv v' _ _ h
      simp only [setFieldValue] at h
      exact Option.noConfusion h
    · intro fields fvs g nv r _ _ h
      simp only [setFieldValuePromoted] at h
      exact Option.noConfusion h
  | succ k ih =>
    constructor
    · intro name v g nv v' hg hanon hset
      cases v with
      | vstruct fvs =>
        simp only [setFieldValue] at hset
        by_cases hdir : ((c.senv name).find? (fun f => f.name = g)).isSome
        · rw [if_pos hdir] at hset
          by_cases hfv : (fvs.find? (fun p => p.1 = g)).isSome
          · rw [if_pos hfv] at hset
            injection hset with hset
            subst hset
            show structLookup _ fname = structLookup (GoValue.vstruct fvs) fname
            simp only [structLookup]
            exact find_assoc_update_ne g fname nv hg fvs
          · rw [if_neg hfv] at hset
            exact Option.noConfusion hset
        · rw [if_neg hdir] at hset
          cases hpro : setFieldValuePromoted k c (c.senv name) fvs g nv with
          | none =>
            rw [hpro] at hset
            exact Option.noConfusion hset
          | some r =>
            rw [hpro] at hset
            injection hset with hset
            subst hset
            show structLookup _ fname = structLookup (GoValue.vstruct fvs) fname
            simp only [structLookup]
            exact ih.2 (c.senv name) fvs g nv r hg hanon hpro
      | vnilPtr =>
        simp only [setFieldValue] at hset
        exact Option.noConfusion hset
      | vptr e =>
        simp only [setFieldValue] at hset
        exact Option.noConfusion hset
      | vslice es =>
        simp only [setFieldValue] at hset
        exact Option.noConfusion hset
      | varray es =>
        simp only [setFieldValue] at hset
        exact Option.noConfusion hset
      | vnilMap =>
        simp only [setFieldValue] at hset
        exact Option.noConfusion hset
      | vmap es =>
        simp only [setFieldValue] at hset
        exact Option.noConfusion hset
      | vstr s =>
        simp only [setFieldValue] at hset
        exact Option.noConfusion hset
      | vint n =>
        simp only [setFieldValue] at hset
        exact Option.noConfusion hset
      | vbool b =>
        simp only [setFieldValue] at hset
        exact Option.noConfusion hset
      | vinvalid =>
        simp only [setFieldValue] at hset
        exact Option.noConfusion hset
    · intro fields fvs g nv r hg hanon hset
      cases fields with
      | nil =>
        simp only [setFieldValuePromoted] at hset
        exact Option.noConfusion hset
      | cons f rest =>
        simp only [setFieldValuePromoted] at hset
        have hanon' : ∀ a ∈ rest, a.anonymous = true → a.name ≠ fname := fun a ha =>
          hanon a (List.mem_cons_of_mem _ ha)
        by_cases hfa : f.anonymous = true
        · rw [if_pos hfa] at hset
          have hfname : f.name ≠ fname := hanon f (List.mem_cons_self _ _) hfa
          cases hft : f.type with
          | strukt m =>
            rw [hft] at hset
            cases hsub : (fvs.find? (fun p => p.1 = f.name)).map (fun p => p.2) with
            | none =>
              rw [hsub] at hset
              exact ih.2 rest fvs g nv r hg hanon' hset
            | some sub =>
              rw [hsub] at hset
              have hset2 : (match setFieldValue k c (.strukt m) sub g nv with
                  | some sub' =>
                    some (fvs.map (fun p => if p.1 = f.name then (p.1, sub') else p))
                  | none => setFieldValuePromoted k c rest fvs g nv) = some r := hset
              cases hinner : setFieldValue k c (.strukt m) sub g nv with
              | none =>
                rw [hinner] at hset2
                exact ih.2 rest fvs g nv r hg hanon' hset2
              | some sub' =>
                rw [hinner] at hset2
                injection hset2 with hset2
                subst hset2
                exact find_assoc_update_ne f.name fname sub' hfname fvs
          | ptr e =>
            rw [hft] at hset
            exact ih.2 rest fvs g nv r hg hanon' hset
          | slice e =>
            rw [hft] at hset
            exact ih.2 rest fvs g nv r hg hanon' hset
          | array n e =>
            rw [hft] at hset
            exact ih.2 rest fvs g nv r hg hanon' hset
          | mapT a b =>
            rw [hft] at hset
            exact ih.2 rest fvs g nv r hg hanon' hset
          | tString =>
            rw [hft] at hset
            exact ih.2 rest fvs g nv r hg hanon' hset
          | tInt =>
            rw [hft] at hset
            exact ih.2 rest fvs g nv r hg hanon' hset
          | tBool =>
            rw [hft] at hset
            exact ih.2 rest fvs g nv r hg hanon' hset
          | iface nm =>
            rw [hft] at hset
            exact ih.2 rest fvs g nv r hg hanon' hset
          | badKind nm =>
            rw [hft] at hset
            exact ih.2 rest fvs g nv r hg hanon' hset
        · rw [if_neg hfa] at hset
          exact ih.2 rest fvs g nv r hg hanon' hset

theorem structLookup_assignToStruct_ne (c : Ctx) (fname name : String)
    (hanon : ∀ a ∈ c.senv name, a.anonymous = true → a.name ≠ fname) :
    ∀ (fuel : Nat) (cs : Bool) (v : GoValue) (path : List String) (s : String),
      (popBack path).1 ≠ fname →
      structLookup ((assignToStruct fuel c cs v (.strukt name) path s)).1 fname =
        structLookup v fname := by
  intro fuel cs v path s hpath
  cases fuel with
  | zero => rfl
  | succ k =>
    rcases hpp : popBack path with ⟨g, rest⟩
    have hg : g ≠ fname := by rw [hpp] at hpath; exact hpath
    cases hfb : fieldByName (k + 1) c (.strukt name) g with
    | none => simp only [assignToStruct, hpp, hfb]
    | some sf =>
      cases hgf : getFieldValue (k + 1) c (.strukt name) v g with
      | none => simp only [assignToStruct, hpp, hfb, hgf]
      | some fv =>
        by_cases htag : sf.tag = some "noexpand"
        · cases halloc : allocate (k + 1) c cs fv sf.type with
          | error e => simp only [assignToStruct, hpp, hfb, hgf, if_pos htag, halloc]
          | ok quad =>
            obtain ⟨iv, it, rb, cs'⟩ := quad
            cases hsv : setValue c cs' it iv s with
            | error e =>
              cases hsf : setFieldValue (k + 1) c (.strukt name) v g (rb iv) with
              | some val' =>
                simp only [assignToStruct, hpp, hfb, hgf, if_pos htag, halloc, hsv, hsf]
                exact (structLookup_setFieldValue_ne c fname (k + 1)).1 name v g (rb iv)
                  val' hg hanon hsf
              | none =>
                simp only [assignToStruct, hpp, hfb, hgf, if_pos htag, halloc, hsv, hsf]
            | ok nv =>
              cases hsf : setFieldValue (k + 1) c (.strukt name) v g (rb nv) with
              | some val' =>
                simp only [assignToStruct, hpp, hfb, hgf, if_pos htag, halloc, hsv, hsf]
                exact (structLookup_setFieldValue_ne c fname (k + 1)).1 name v g (rb nv)
                  val' hg hanon hsf
              | none =>
                simp only [assignToStruct, hpp, hfb, hgf, if_pos htag, halloc, hsv, hsf]
        · cases hsf : setFieldValue (k + 1) c (.strukt name) v g
              (assignValue k c cs fv sf.type rest s).1 with
          | some val' =>
            simp only [assignToStruct, hpp, hfb, hgf, if_neg htag, hsf]
            exact (structLookup_setFieldValue_ne c fname (k + 1)).1 name v g
              (assignValue k c cs fv sf.type rest s).1 val' hg hanon hsf
          | none =>
            simp only [assignToStruct, hpp, hfb, hgf, if_neg htag, hsf]

theorem structLookup_assignValue_ne (c : Ctx) (fname name : String)
    (hanon : ∀ a ∈ c.senv name, a.anonymous = true → a.name ≠ fname)
    (fuel : Nat) (cs : Bool) (v : GoValue) (path : List String) (s : String)
    (hpath : (popBack path).1 ≠ fname) :
    structLookup ((assignValue fuel c cs v (.strukt name) path s)).1 fname =
      structLookup v fname := by
  cases fuel with
  | zero => rfl
  | succ k =>
    show structLookup ((assignToStruct k c cs v (.strukt name) path s)).1 fname = _
    exact structLookup_assignToStruct_ne c fname name hanon k cs v path s hpath

theorem structLookup_assignValues_ne (c : Ctx) (fname name : String)
    (hanon : ∀ a ∈ c.senv name, a.anonymous = true → a.name ≠ fname) (fuel : Nat) :
    ∀ (vs : List EnvValue) (v : GoValue),
      (∀ ev ∈ vs, (popBack ev.path).1 ≠ fname) →
      structLookup ((assignValues fuel c v (.strukt name) vs).1) fname =
        structLookup v fname := by
  intro vs
  induction vs with
  | nil => intro v _; rfl
  | cons ev rest ih =>
    intro v hall
    have hev : (popBack ev.path).1 ≠ fname := hall ev (List.mem_cons_self _ _)
    have hrest : ∀ e ∈ rest, (popBack e.path).1 ≠ fname := fun e he =>
      hall e (List.mem_cons_of_mem _ he)
    have hstep := structLookup_assignValue_ne c fname name hanon fuel true v ev.path
      ev.strValue hev
    simp only [assignValues]
    cases hr : (assignValue fuel c true v (.strukt name) ev.path ev.strValue).2 with
    | some e => exact hstep
    | none => exact (ih _ hrest).trans hstep

/-- A record embedding (anonymously) a struct `E` whose field carries an
`envconfig` tag other than `noexpand`. -/
def c9cexCtx : Ctx :=
  { pfx := "", separator := "_", setters := stringOnlySetters, maxDepth := 10,
    senv := fun n =>
      if n = "T" then [⟨"E", .strukt "E", true, some "opaque"⟩]
      else if n = "E" then [⟨"X", .tString, false, none⟩] else [],
    env := [("X", "v")] }

/-- Claim C9 is false as stated: the embedded field `E` carries the
`envconfig` tag `opaque` (which is not `noexpand`), yet discovery does not
skip it — the anonymous-field branch runs before the tag is inspected, and a
value is emitted from inside `E`. -/
theorem c9_counterexample :
    analyzeStruct 10 c9cexCtx (.strukt "T") [] = .ok [⟨"v", ["X"]⟩] ∧
    ([(⟨"v", ["X"]⟩ : EnvValue)] : List EnvValue) ≠ [] := by
  refine ⟨rfl, ?_⟩
  decide

/-- Amended claim C9: a non-embedded field carrying an `envconfig` tag other
than `noexpand`, whose type does not resolve by pointer indirection to the
record being walked, is skipped entirely by discovery — the walk over the
field list with and without it produce the same result (no values, no
error); and the assignment pass leaves a top-level field untouched whenever
no discovered path begins with its name (and no anonymous field shares that
name, through which a promoted write could reach the same entry).  Embedded
fields bypass the tag check, and the recursive-type guard runs before it. -/
theorem c9_amended_tagged_skip :
    (∀ (c : Ctx) (ct : GoType)
        (gS gV : GoType → List String → Except Err (List EnvValue))
        (fs₁ : List StructField) (f : StructField) (fs₂ : List StructField)
        (p : List String) (tg : String),
      f.tag = some tg → tg ≠ "noexpand" → f.anonymous = false →
      ¬(isPtrKind f.type = true ∧ indirectedType f.type = ct) →
      analyzeFieldsGo c ct gS gV (fs₁ ++ f :: fs₂) p =
        analyzeFieldsGo c ct gS gV (fs₁ ++ fs₂) p) ∧
    (∀ (c : Ctx) (name fname : String) (fuel : Nat) (vs : List EnvValue) (v : GoValue),
      (∀ a ∈ c.senv name, a.anonymous = true → a.name ≠ fname) →
      (∀ ev ∈ vs, (popBack ev.path).1 ≠ fname) →
      structLookup ((assignValues fuel c v (.strukt name) vs).1) fname =
        structLookup v fname) := by
  constructor
  · intro c ct gS gV fs₁ f fs₂ p tg htag hne hanon hguard
    rw [analyzeFieldsGo_append, analyzeFieldsGo_append]
    have hskip : analyzeFieldsGo c ct gS gV (f :: fs₂) p = analyzeFieldsGo c ct gS gV fs₂ p := by
      rw [analyzeFieldsGo_cons]
      have hone : analyzeOneField c ct gS gV f p = .ok [] := by
        simp only [analyzeOneField, if_neg hguard, hanon, Bool.false_eq_true, if_false, htag]
        rw [if_neg hne]
      rw [hone]
      cases analyzeFieldsGo c ct gS gV fs₂ p <;> simp [Except.bind]
    rw [hskip]
  · intro c name fname fuel vs v hanon hpaths
    exact structLookup_assignValues_ne c fname name hanon fuel vs v hpaths

/-- A record with a skippable tagged field between two plain fields. -/
def c9okCtx : Ctx :=
  { pfx := "", separator := "_", setters := stringOnlySetters, maxDepth := 10,
    senv := fun n =>
      if n = "T" then
        [⟨"A", .tString, false, none⟩, ⟨"Skip", .tString, false, some "other"⟩,
         ⟨"B", .tString, false, none⟩]
      else [],
    env := [("A", "1"), ("SKIP", "2"), ("B", "3")] }

/-- Witness for the amended C9: the tagged field contributes nothing to
discovery, and an assignment list not naming `Skip` leaves it untouched. -/
theorem c9_amended_tagged_skip_witness :
    analyzeFieldsGo c9okCtx (.strukt "T")
        (fun t p => analyzeStruct 8 c9okCtx t p) (fun t p => analyzeValue 8 c9okCtx t p)
        ([⟨"A", .tString, false, none⟩] ++ ⟨"Skip", .tString, false, some "other"⟩ ::
          [⟨"B", .tString, false, none⟩]) [] =
      analyzeFieldsGo c9okCtx (.strukt "T")
        (fun t p => analyzeStruct 8 c9okCtx t p) (fun t p => analyzeValue 8 c9okCtx t p)
        ([⟨"A", .tString, false, none⟩] ++ [⟨"B", .tString, false, none⟩]) [] ∧
    structLookup ((assignValues 10 c9okCtx
        (.vstruct [("A", .vstr ""), ("Skip", .vstr "keep"), ("B", .vstr "")])
        (.strukt "T") [⟨"1", ["A"]⟩, ⟨"3", ["B"]⟩]).1) "Skip" =
      structLookup (.vstruct [("A", .vstr ""), ("Skip", .vstr "keep"), ("B", .vstr "")])
        "Skip" :=
  ⟨c9_amended_tagged_skip.1 c9okCtx (.strukt "T")
      (fun t p => analyzeStruct 8 c9okCtx t p) (fun t p => analyzeValue 8 c9okCtx t p)
      [⟨"A", .tString, false, none⟩] ⟨"Skip", .tString, false, some "other"⟩
      [⟨"B", .tString, false, none⟩] [] "other" rfl (by decide) rfl (by decide),
   c9_amended_tagged_skip.2 c9okCtx "T" "Skip" 10 [⟨"1", ["A"]⟩, ⟨"3", ["B"]⟩]
      (.vstruct [("A", .vstr ""), ("Skip", .vstr "keep"), ("B", .vstr "")])
      (by intro a ha hanon; simp [c9okCtx] at ha; rcases ha with h | h | h <;>
        simp [h] at hanon ⊢)
      (by
        intro ev hev
        rw [List.mem_cons] at hev
        rcases hev with rfl | hev
        · simp [popBack]
        · rw [List.mem_cons] at hev
          rcases hev with rfl | hev
          · simp [popBack]
          · cases hev)⟩

/-! ## Claim C8: idempotence of Load -/

/-- The scalar leaf kinds. -/
def isScalarKind : GoType → Bool
  | .tString => true
  | .tInt => true
  | .tBool => true
  | _ => false

/-- Overwrite the entry named `nm` of a field list (the shape
`reflect.Value.FieldByName(..).Set` takes in the embedding). -/
def updateFvs (fvs : List (String × GoValue)) (nm : String) (nv : GoValue) :
    List (String × GoValue) :=
  fvs.map (fun p => if p.1 = nm then (p.1, nv) else p)

/-- The value held under a name in a field list. -/
def fieldVal (fvs : List (String × GoValue)) (x : String) : Option GoValue :=
  (fvs.find? (fun p => p.1 = x)).map (fun p => p.2)

theorem fieldVal_updateFvs_ne (fvs : List (String × GoValue)) (nm x : String)
    (nv : GoValue) (h : nm ≠ x) : fieldVal (updateFvs fvs nm nv) x = fieldVal fvs x :=
  find_assoc_update_ne nm x nv h fvs

theorem fieldVal_updateFvs_self (nm : String) (nv : GoValue) :
    ∀ (fvs : List (String × GoValue)),
      fieldVal (updateFvs fvs nm nv) nm = (fieldVal fvs nm).map (fun _ => nv) := by
  intro fvs
  induction fvs with
  | nil => rfl
  | cons p rest ih =>
    obtain ⟨pn, pv⟩ := p
    by_cases hp : pn = nm
    · subst hp
      simp [updateFvs, fieldVal]
    · have hneg : ¬((fun q : String × GoValue => decide (q.1 = nm)) (pn, pv) = true) := by
        simpa using hp
      simp only [updateFvs, fieldVal] at ih ⊢
      simp only [List.map_cons]
      rw [if_neg (show ¬((pn, pv).1 = nm) from hp)]
      rw [@List.find?_cons_of_neg _ (fun q => decide (q.1 = nm)) (pn, pv)
        (rest.map (fun p => if p.1 = nm then (p.1, nv) else p)) hneg]
      rw [@List.find?_cons_of_neg _ (fun q => decide (q.1 = nm)) (pn, pv) rest hneg]
      exact ih

theorem updateFvs_map_fst (fvs : List (String × GoValue)) (nm : String) (nv : GoValue) :
    (updateFvs fvs nm nv).map (fun p => p.1) = fvs.map (fun p => p.1) := by
  induction fvs with
  | nil => rfl
  | cons p rest ih =>
    obtain ⟨pn, pv⟩ := p
    by_cases hp : pn = nm <;>
      simp only [updateFvs, List.map_cons] at ih ⊢ <;>
      simp [hp, ih]

theorem updateFvs_not_mem (nm : String) (nv : GoValue) :
    ∀ (fvs : List (String × GoValue)), nm ∉ fvs.map (fun p => p.1) →
      updateFvs fvs nm nv = fvs := by
  intro fvs
  induction fvs with
  | nil => intro _; rfl
  | cons p rest ih =>
    intro h
    simp only [List.map_cons, List.mem_cons] at h
    push_neg at h
    have h1 : ¬(p.1 = nm) := fun hc => h.1 hc.symm
    have h2 := ih h.2
    simp only [updateFvs] at h2 ⊢
    simp [h1, h2]

theorem updateFvs_self_value (nm : String) (pv : GoValue) :
    ∀ (fvs : List (String × GoValue)), (fvs.map (fun p => p.1)).Nodup →
      fvs.find? (fun p => p.1 = nm) = some (nm, pv) →
      updateFvs fvs nm pv = fvs := by
  intro fvs
  induction fvs with
  | nil => intro _ h; exact Option.noConfusion h
  | cons p rest ih =>
    intro hnodup hfind
    obtain ⟨pn, pvv⟩ := p
    simp only [List.map_cons, List.nodup_cons] at hnodup
    by_cases hp : pn = nm
    · subst hp
      rw [List.find?_cons_of_pos _ (by simp)] at hfind
      injection hfind with hfind
      have hv : pvv = pv := congrArg Prod.snd hfind
      subst hv
      have h2 := updateFvs_not_mem pn pvv rest hnodup.1
      simp only [updateFvs] at h2 ⊢
      simp [h2]
    · have hneg : ¬((fun q : String × GoValue => decide (q.1 = nm)) (pn, pvv) = true) := by
        simpa using hp
      rw [@List.find?_cons_of_neg _ (fun q => decide (q.1 = nm)) (pn, pvv) rest hneg] at hfind
      have h2 := ih hnodup.2 hfind
      simp only [updateFvs] at h2 ⊢
      simp [hp, h2]

theorem find_field_of_mem (f : StructField) :
    ∀ (fields : List StructField), (fields.map (fun g => g.name)).Nodup → f ∈ fields →
      fields.find? (fun g => g.name = f.name) = some f := by
  intro fields
  induction fields with
  | nil => intro _ h; cases h
  | cons g rest ih =>
    intro hnodup hmem
    simp only [List.map_cons, List.nodup_cons] at hnodup
    rw [List.mem_cons] at hmem
    rcases hmem with rfl | hmem
    · exact List.find?_cons_of_pos _ (by simp)
    · by_cases hg : g.name = f.name
      · exact absurd (hg ▸ List.mem_map_of_mem (fun x => x.name) hmem) hnodup.1
      · have hneg : ¬((fun x : StructField => decide (x.name = f.name)) g = true) := by
          simpa using hg
        rw [@List.find?_cons_of_neg _ (fun x => decide (x.name = f.name)) g rest hneg]
        exact ih hnodup.2 hmem

theorem find_entry_of_mem_fst (nm : String) :
    ∀ (fvs : List (String × GoValue)), nm ∈ fvs.map (fun p => p.1) →
      ∃ pv, fvs.find? (fun p => p.1 = nm) = some (nm, pv) := by
  intro fvs
  induction fvs with
  | nil => intro h; cases h
  | cons p rest ih =>
    intro h
    obtain ⟨pn, pv⟩ := p
    by_cases hp : pn = nm
    · subst hp
      exact ⟨pv, List.find?_cons_of_pos _ (by simp)⟩
    · simp only [List.map_cons, List.mem_cons] at h
      rcases h with h | h
      · exact absurd h.symm hp
      · have hneg : ¬((fun q : String × GoValue => decide (q.1 = nm)) (pn, pv) = true) := by
          simpa using hp
        rw [@List.find?_cons_of_neg _ (fun q => decide (q.1 = nm)) (pn, pv) rest hneg]
        exact ih h

theorem setValue_oblivious (c : Ctx)
    (hobliv : ∀ t st s v w, c.setters t = some st → st s v = st s w)
    (t : GoType) (v w : GoValue) (s : String) :
    setValue c true t v s = setValue c true t w s := by
  simp only [setValue, Bool.not_true, Bool.false_eq_true, if_false]
  cases hs : c.setters t with
  | none => rfl
  | some st => exact hobliv t st s v w hs

theorem analyzeValue_scalar (c : Ctx) (k : Nat) (t : GoType) (p : List String)
    (hscalar : isScalarKind t = true) (hdepth : ¬(p.length > c.maxDepth)) :
    analyzeValue (k + 1) c t p = .ok ((loadValue c p).toList) := by
  cases t with
  | tString =>
    simp only [analyzeValue, if_neg hdepth]
    cases loadValue c p <;> rfl
  | tInt =>
    simp only [analyzeValue, if_neg hdepth]
    cases loadValue c p <;> rfl
  | tBool =>
    simp only [analyzeValue, if_neg hdepth]
    cases loadValue c p <;> rfl
  | ptr e => exact absurd hscalar (by simp [isScalarKind])
  | strukt n => exact absurd hscalar (by simp [isScalarKind])
  | slice e => exact absurd hscalar (by simp [isScalarKind])
  | array n e => exact absurd hscalar (by simp [isScalarKind])
  | mapT a b => exact absurd hscalar (by simp [isScalarKind])
  | iface n => exact absurd hscalar (by simp [isScalarKind])
  | badKind n => exact absurd hscalar (by simp [isScalarKind])

/-- The discovered values of a record whose fields are all plain scalars: one
per present environment variable, in field order. -/
def flatValues (c : Ctx) (fields : List StructField) : List EnvValue :=
  fields.foldr (fun f acc => (loadValue c [f.name]).toList ++ acc) []

theorem analyzeFieldsGo_flat (c : Ctx) (name : String) (k : Nat)
    (gS : GoType → List String → Except Err (List EnvValue)) :
    ∀ (fields : List StructField),
      (∀ f ∈ fields, f.anonymous = false ∧ f.tag = none ∧ isScalarKind f.type = true) →
      1 ≤ c.maxDepth →
      analyzeFieldsGo c (.strukt name) gS (fun t p => analyzeValue (k + 1) c t p)
          fields [] =
        .ok (flatValues c fields) := by
  intro fields
  induction fields with
  | nil => intro _ _; rfl
  | cons f rest ih =>
    intro hflat hdepth
    obtain ⟨hanon, htag, hscalar⟩ := hflat f (List.mem_cons_self _ _)
    rw [analyzeFieldsGo_cons]
    have hguard : ¬(isPtrKind f.type = true ∧ indirectedType f.type = .strukt name) := by
      rintro ⟨h1, -⟩
      cases hft : f.type <;> rw [hft] at h1 hscalar <;>
        simp_all [isPtrKind, isScalarKind]
    have hone : analyzeOneField c (.strukt name) gS
        (fun t p => analyzeValue (k + 1) c t p) f [] =
        .ok ((loadValue c [f.name]).toList) := by
      simp only [analyzeOneField, if_neg hguard, hanon, Bool.false_eq_true, if_false, htag]
      exact analyzeValue_scalar c k f.type [f.name] hscalar (Nat.not_lt.mpr hdepth)
    rw [hone, ih (fun g hg => hflat g (List.mem_cons_of_mem _ hg)) hdepth]
    show Except.ok (((loadValue c [f.name]).toList) ++ flatValues c rest) = _
    rfl

theorem loadValue_path (c : Ctx) (p : List String) (ev : EnvValue)
    (h : loadValue c p = some ev) : ev.path = p := by
  simp only [loadValue] at h
  cases hv : lookupEnv c.env (envVarFromPath c p) with
  | none => rw [hv] at h; exact Option.noConfusion h
  | some value =>
    rw [hv] at h
    injection h with h
    rw [← h]

theorem flatValues_paths (c : Ctx) :
    ∀ (fields : List StructField) (ev : EnvValue), ev ∈ flatValues c fields →
      ∃ f ∈ fields, ev.path = [f.name] := by
  intro fields
  induction fields with
  | nil => intro ev h; cases h
  | cons f rest ih =>
    intro ev h0
    have h : ev ∈ (loadValue c [f.name]).toList ++ flatValues c rest := h0
    rw [List.mem_append] at h
    rcases h with h | h
    · refine ⟨f, List.mem_cons_self _ _, ?_⟩
      cases hl : loadValue c [f.name] with
      | none => rw [hl] at h; cases h
      | some v =>
        rw [hl] at h
        simp only [Option.toList, List.mem_singleton] at h
        subst h
        exact loadValue_path c [f.name] ev hl
    · obtain ⟨g, hg, hp⟩ := ih ev h
      exact ⟨g, List.mem_cons_of_mem _ hg, hp⟩

theorem assignValue_flat_step (c : Ctx) (name : String) (m : Nat)
    (f : StructField) (fvs : List (String × GoValue)) (s : String) (pv : GoValue)
    (hmem : f ∈ c.senv name)
    (hnodup : ((c.senv name).map (fun g => g.name)).Nodup)
    (htag : f.tag = none)
    (hscalar : isScalarKind f.type = true)
    (hshape : fvs.map (fun p => p.1) = (c.senv name).map (fun g => g.name))
    (hfind : fvs.find? (fun p => p.1 = f.name) = some (f.name, pv))
    (hobliv : ∀ t st s v w, c.setters t = some st → st s v = st s w) :
    assignValue (m + 3) c true (.vstruct fvs) (.strukt name) [f.name] s =
      (match setValue c true f.type .vinvalid s with
      | .error e => (.vstruct fvs, some e)
      | .ok nv => (.vstruct (updateFvs fvs f.name nv), none)) := by
  have hfind_fields : (c.senv name).find? (fun g => g.name = f.name) = some f :=
    find_field_of_mem f _ hnodup hmem
  have hfvnodup : (fvs.map (fun p => p.1)).Nodup := by rw [hshape]; exact hnodup
  have hfb : fieldByName (m + 2) c (.strukt name) f.name = some f := by
    show fieldByName ((m + 1) + 1) c (.strukt name) f.name = some f
    simp only [fieldByName, hfind_fields]
  have hgf : getFieldValue (m + 2) c (.strukt name) (.vstruct fvs) f.name = some pv := by
    show getFieldValue ((m + 1) + 1) c (.strukt name) (.vstruct fvs) f.name = some pv
    simp only [getFieldValue, hfind_fields, hfind, Option.isSome_some, if_true]
    rfl
  have hsfv : ∀ nv, setFieldValue (m + 2) c (.strukt name) (.vstruct fvs) f.name nv =
      some (.vstruct (updateFvs fvs f.name nv)) := by
    intro nv
    show setFieldValue ((m + 1) + 1) c (.strukt name) (.vstruct fvs) f.name nv = _
    simp only [setFieldValue, hfind_fields, hfind, Option.isSome_some, if_true]
    rfl
  have hleaf : assignValue (m + 1) c true pv f.type [] s =
      (match setValue c true f.type .vinvalid s with
      | .error e => (pv, some e)
      | .ok nv => (nv, none)) := by
    have hob := setValue_oblivious c hobliv f.type pv .vinvalid s
    cases hft : f.type with
    | tString =>
      show (match setValue c true .tString pv s with
        | .error e => (pv, some e)
        | .ok nv => (nv, none)) = _
      rw [hft] at hob
      rw [hob]
    | tInt =>
      show (match setValue c true .tInt pv s with
        | .error e => (pv, some e)
        | .ok nv => (nv, none)) = _
      rw [hft] at hob
      rw [hob]
    | tBool =>
      show (match setValue c true .tBool pv s with
        | .error e => (pv, some e)
        | .ok nv => (nv, none)) = _
      rw [hft] at hob
      rw [hob]
    | ptr e => rw [hft] at hscalar; exact absurd hscalar (by simp [isScalarKind])
    | strukt n => rw [hft] at hscalar; exact absurd hscalar (by simp [isScalarKind])
    | slice e => rw [hft] at hscalar; exact absurd hscalar (by simp [isScalarKind])
    | array n e => rw [hft] at hscalar; exact absurd hscalar (by simp [isScalarKind])
    | mapT a b => rw [hft] at hscalar; exact absurd hscalar (by simp [isScalarKind])
    | iface n => rw [hft] at hscalar; exact absurd hscalar (by simp [isScalarKind])
    | badKind n => rw [hft] at hscalar; exact absurd hscalar (by simp [isScalarKind])
  show assignToStruct (m + 2) c true (.vstruct fvs) (.strukt name) [f.name] s = _
  have hpop : popBack [f.name] = (f.name, ([] : List String)) := rfl
  have hnx : ¬(f.tag = some "noexpand") := by rw [htag]; intro h; exact Option.noConfusion h
  show (match fieldByName (m + 2) c (.strukt name) f.name with
    | none => ((.vstruct fvs : GoValue), some (Err.fieldNotFound f.name))
    | some structField =>
      match getFieldValue (m + 2) c (.strukt name) (.vstruct fvs) f.name with
      | none => ((.vstruct fvs : GoValue),
          some (Err.panicked "reflect: FieldByName of missing field"))
      | some fv =>
        if structField.tag = some "noexpand" then
          match allocate (m + 2) c true fv structField.type with
          | .error e => ((.vstruct fvs : GoValue), some e)
          | .ok (iv, it, rb, cs) =>
            match setValue c cs it iv s with
            | .error e =>
              match setFieldValue (m + 2) c (.strukt name) (.vstruct fvs) f.name (rb iv) with
              | some val' => (val', some e)
              | none => ((.vstruct fvs : GoValue), some e)
            | .ok nv =>
              match setFieldValue (m + 2) c (.strukt name) (.vstruct fvs) f.name (rb nv) with
              | some val' => (val', none)
              | none => ((.vstruct fvs : GoValue),
                  some (Err.panicked "reflect: FieldByName of missing field"))
        else
          match setFieldValue (m + 2) c (.strukt name) (.vstruct fvs) f.name
              (assignValue (m + 1) c true fv structField.type [] s).1 with
          | some val' => (val', (assignValue (m + 1) c true fv structField.type [] s).2)
          | none => ((.vstruct fvs : GoValue),
              some (Err.panicked "reflect: FieldByName of missing field"))) = _
  simp only [hfb, hgf]
  rw [if_neg hnx]
  rw [hleaf]
  cases hsv : setValue c true f.type .vinvalid s with
  | error e =>
    rw [hsfv pv]
    rw [updateFvs_self_value f.name pv fvs hfvnodup hfind]
  | ok nv =>
    rw [hsfv nv]

/-- One abstract assignment step on a flat all-scalar record: look the field
up, run its setter (on the zero value — legitimate when setters are
value-oblivious), and overwrite the named entry. -/
def flatStep (c : Ctx) (fields : List StructField) (fvs : List (String × GoValue))
    (x s : String) : List (String × GoValue) × Option Err :=
  match fields.find? (fun g => g.name = x) with
  | none => (fvs, some (Err.fieldNotFound x))
  | some f =>
    match setValue c true f.type .vinvalid s with
    | .error e => (fvs, some e)
    | .ok nv => (updateFvs fvs x nv, none)

/-- The abstract assignment pass over a flat record: fold `flatStep` over the
discovered values, stopping at the first error. -/
def runFvs (c : Ctx) (fields : List StructField) :
    List EnvValue → List (String × GoValue) → List (String × GoValue) × Option Err
  | [], fvs => (fvs, none)
  | v :: rest, fvs =>
    match flatStep c fields fvs v.path.headI v.strValue with
    | (fvs', some e) => (fvs', some e)
    | (fvs', none) => runFvs c fields rest fvs'

/-- The last value written to the field named `x` by the executed prefix of
the value list (writes after an aborting error do not count). -/
def lastW (c : Ctx) (fields : List StructField) : List EnvValue → String → Option GoValue
  | [], _ => none
  | v :: rest, x =>
    match fields.find? (fun g => g.name = v.path.headI) with
    | none => none
    | some f =>
      match setValue c true f.type .vinvalid v.strValue with
      | .error _ => none
      | .ok nv =>
        match lastW c fields rest x with
        | some w => some w
        | none => if v.path.headI = x then some nv else none

/-- The error produced by the abstract pass; it does not depend on the
record state. -/
def runErr (c : Ctx) (fields : List StructField) : List EnvValue → Option Err
  | [] => none
  | v :: rest =>
    match fields.find? (fun g => g.name = v.path.headI) with
    | none => some (Err.fieldNotFound v.path.headI)
    | some f =>
      match setValue c true f.type .vinvalid v.strValue with
      | .error e => some e
      | .ok _ => runErr c fields rest

theorem runFvs_snd (c : Ctx) (fields : List StructField) :
    ∀ (vs : List EnvValue) (fvs : List (String × GoValue)),
      (runFvs c fields vs fvs).2 = runErr c fields vs := by
  intro vs
  induction vs with
  | nil => intro fvs; rfl
  | cons v rest ih =>
    intro fvs
    cases hf : fields.find? (fun g => g.name = v.path.headI) with
    | none => simp only [runFvs, runErr, flatStep, hf]
    | some f =>
      cases hs : setValue c true f.type .vinvalid v.strValue with
      | error e => simp only [runFvs, runErr, flatStep, hf, hs]
      | ok nv =>
        simp only [runFvs, runErr, flatStep, hf, hs]
        exact ih _

theorem runFvs_fst_map (c : Ctx) (fields : List StructField) :
    ∀ (vs : List EnvValue) (fvs : List (String × GoValue)),
      ((runFvs c fields vs fvs).1).map (fun p => p.1) = fvs.map (fun p => p.1) := by
  intro vs
  induction vs with
  | nil => intro fvs; rfl
  | cons v rest ih =>
    intro fvs
    cases hf : fields.find? (fun g => g.name = v.path.headI) with
    | none => simp only [runFvs, flatStep, hf]
    | some f =>
      cases hs : setValue c true f.type .vinvalid v.strValue with
      | error e => simp only [runFvs, flatStep, hf, hs]
      | ok nv =>
        simp only [runFvs, flatStep, hf, hs]
        rw [ih]
        exact updateFvs_map_fst fvs v.path.headI nv

theorem fieldVal_runFvs (c : Ctx) (fields : List StructField) :
    ∀ (vs : List EnvValue) (fvs : List (String × GoValue)) (x : String),
      fieldVal ((runFvs c fields vs fvs).1) x =
        (match lastW c fields vs x with
        | none => fieldVal fvs x
        | some w => (fieldVal fvs x).map (fun _ => w)) := by
  intro vs
  induction vs with
  | nil => intro fvs x; rfl
  | cons v rest ih =>
    intro fvs x
    cases hf : fields.find? (fun g => g.name = v.path.headI) with
    | none => simp only [runFvs, flatStep, lastW, hf]
    | some f =>
      cases hs : setValue c true f.type .vinvalid v.strValue with
      | error e => simp only [runFvs, flatStep, lastW, hf, hs]
      | ok nv =>
        simp only [runFvs, flatStep, lastW, hf, hs]
        rw [ih]
        cases hl : lastW c fields rest x with
        | some w =>
          show (fieldVal (updateFvs fvs v.path.headI nv) x).map (fun _ => w) =
            (fieldVal fvs x).map (fun _ => w)
          by_cases hx : v.path.headI = x
          · subst hx
            rw [fieldVal_updateFvs_self]
            cases fieldVal fvs v.path.headI <;> rfl
          · rw [fieldVal_updateFvs_ne fvs v.path.headI x nv hx]
        | none =>
          by_cases hx : v.path.headI = x
          · subst hx
            rw [if_pos rfl]
            exact fieldVal_updateFvs_self v.path.headI nv fvs
          · rw [if_neg hx]
            exact fieldVal_updateFvs_ne fvs v.path.headI x nv hx

theorem assoc_ext :
    ∀ (l1 l2 : List (String × GoValue)),
      l1.map (fun p => p.1) = l2.map (fun p => p.1) →
      (l1.map (fun p => p.1)).Nodup →
      (∀ x, fieldVal l1 x = fieldVal l2 x) → l1 = l2 := by
  intro l1
  induction l1 with
  | nil =>
    intro l2 hmap _ _
    cases l2 with
    | nil => rfl
    | cons p r => exact absurd hmap (by simp)
  | cons p r1 ih =>
    intro l2 hmap hnodup hpt
    cases l2 with
    | nil => exact absurd hmap (by simp)
    | cons q r2 =>
      obtain ⟨pn, pv⟩ := p
      obtain ⟨qn, qv⟩ := q
      simp only [List.map_cons, List.cons.injEq] at hmap
      obtain ⟨hn, hmap⟩ := hmap
      subst hn
      simp only [List.map_cons, List.nodup_cons] at hnodup
      have hv : pv = qv := by
        have h := hpt pn
        simp only [fieldVal] at h
        rw [List.find?_cons_of_pos _ (by simp), List.find?_cons_of_pos _ (by simp)] at h
        simpa using h
      subst hv
      have hr : r1 = r2 := by
        apply ih r2 hmap hnodup.2
        intro x
        by_cases hx : x = pn
        · subst hx
          have h1 : r1.find? (fun q : String × GoValue => decide (q.1 = x)) = none := by
            apply List.find?_eq_none.mpr
            intro a ha
            simp only [decide_eq_true_eq]
            intro hc
            exact hnodup.1 (hc ▸ List.mem_map_of_mem (fun p => p.1) ha)
          have hnotin2 : x ∉ r2.map (fun p : String × GoValue => p.1) := by
            rw [← hmap]
            exact hnodup.1
          have h2 : r2.find? (fun q : String × GoValue => decide (q.1 = x)) = none := by
            apply List.find?_eq_none.mpr
            intro a ha
            simp only [decide_eq_true_eq]
            intro hc
            exact hnotin2 (hc ▸ List.mem_map_of_mem (fun p : String × GoValue => p.1) ha)
          simp only [fieldVal, h1, h2]
        · have h := hpt x
          have hne : ¬((fun q : String × GoValue => decide (q.1 = x)) (pn, pv) = true) := by
            simp only [decide_eq_true_eq]
            intro hc
            exact hx hc.symm
          simp only [fieldVal] at h ⊢
          rw [@List.find?_cons_of_neg _ (fun q => decide (q.1 = x)) (pn, pv) r1 hne,
            @List.find?_cons_of_neg _ (fun q => decide (q.1 = x)) (pn, pv) r2 hne] at h
          exact h
      rw [hr]

theorem runFvs_idem (c : Ctx) (fields : List StructField)
    (vs : List EnvValue) (fvs : List (String × GoValue))
    (hnodup : (fvs.map (fun p => p.1)).Nodup) :
    runFvs c fields vs (runFvs c fields vs fvs).1 = runFvs c fields vs fvs := by
  have hfst : (runFvs c fields vs (runFvs c fields vs fvs).1).1 =
      (runFvs c fields vs fvs).1 := by
    apply assoc_ext
    · exact runFvs_fst_map c fields vs _
    · rw [runFvs_fst_map, runFvs_fst_map]
      exact hnodup
    · intro x
      rw [fieldVal_runFvs c fields vs ((runFvs c fields vs fvs).1) x]
      cases hl : lastW c fields vs x with
      | none => rfl
      | some w =>
        have hG : fieldVal ((runFvs c fields vs fvs).1) x =
            (fieldVal fvs x).map (fun _ => w) := by
          rw [fieldVal_runFvs, hl]
        show (fieldVal ((runFvs c fields vs fvs).1) x).map (fun _ => w) =
          fieldVal ((runFvs c fields vs fvs).1) x
        rw [hG]
        cases fieldVal fvs x <;> rfl
  have hsnd : (runFvs c fields vs (runFvs c fields vs fvs).1).2 =
      (runFvs c fields vs fvs).2 := by
    rw [runFvs_snd, runFvs_snd]
  exact Prod.ext hfst hsnd

theorem assignValues_flat_sim (c : Ctx) (name : String) (m : Nat)
    (hflat : ∀ f ∈ c.senv name,
      f.anonymous = false ∧ f.tag = none ∧ isScalarKind f.type = true)
    (hnodup : ((c.senv name).map (fun g => g.name)).Nodup)
    (hobliv : ∀ t st s v w, c.setters t = some st → st s v = st s w) :
    ∀ (vs : List EnvValue) (fvs : List (String × GoValue)),
      (∀ v ∈ vs, ∃ f ∈ c.senv name, v.path = [f.name]) →
      fvs.map (fun p => p.1) = (c.senv name).map (fun g => g.name) →
      assignValues (m + 3) c (.vstruct fvs) (.strukt name) vs =
        (.vstruct (runFvs c (c.senv name) vs fvs).1, (runFvs c (c.senv name) vs fvs).2) := by
  intro vs
  induction vs with
  | nil => intro fvs _ _; rfl
  | cons v rest ih =>
    intro fvs hvs hshape
    obtain ⟨f, hf, hpath⟩ := hvs v (List.mem_cons_self _ _)
    obtain ⟨hanon, htag, hscalar⟩ := hflat f hf
    have hhead : v.path.headI = f.name := by rw [hpath]; rfl
    have hmemf : f.name ∈ fvs.map (fun p => p.1) := by
      rw [hshape]
      exact List.mem_map_of_mem (fun g => g.name) hf
    obtain ⟨pv, hfind⟩ := find_entry_of_mem_fst f.name fvs hmemf
    have hstep := assignValue_flat_step c name m f fvs v.strValue pv hf hnodup htag
      hscalar hshape hfind hobliv
    have hff : (c.senv name).find? (fun g => g.name = f.name) = some f :=
      find_field_of_mem f (c.senv name) hnodup hf
    cases hs : setValue c true f.type .vinvalid v.strValue with
    | error e =>
      have hstep' : assignValue (m + 3) c true (.vstruct fvs) (.strukt name)
          v.path v.strValue = (.vstruct fvs, some e) := by
        rw [hpath, hstep, hs]
      have hrun : runFvs c (c.senv name) (v :: rest) fvs = (fvs, some e) := by
        simp only [runFvs, flatStep, hhead, hff, hs]
      simp only [assignValues, hstep', hrun]
    | ok nv =>
      have hstep' : assignValue (m + 3) c true (.vstruct fvs) (.strukt name)
          v.path v.strValue = (.vstruct (updateFvs fvs f.name nv), none) := by
        rw [hpath, hstep, hs]
      have hrun : runFvs c (c.senv name) (v :: rest) fvs =
          runFvs c (c.senv name) rest (updateFvs fvs f.name nv) := by
        simp only [runFvs, flatStep, hhead, hff, hs]
      have hshape' : (updateFvs fvs f.name nv).map (fun p => p.1) =
          (c.senv name).map (fun g => g.name) := by
        rw [updateFvs_map_fst]
        exact hshape
      have hrest := ih (updateFvs fvs f.name nv)
        (fun w hw => hvs w (List.mem_cons_of_mem _ hw)) hshape'
      simp only [assignValues, hstep', hrun]
      exact hrest

theorem analyzeStruct_flat (c : Ctx) (name : String) (m : Nat)
    (hflat : ∀ f ∈ c.senv name,
      f.anonymous = false ∧ f.tag = none ∧ isScalarKind f.type = true)
    (hdepth : 1 ≤ c.maxDepth) :
    analyzeStruct (m + 3) c (.strukt name) [] = .ok (flatValues c (c.senv name)) := by
  show analyzeFieldsGo c (.strukt name)
      (fun t p => analyzeStruct (m + 2) c t p)
      (fun t p => analyzeValue (m + 2) c t p) (c.senv name) [] = _
  exact analyzeFieldsGo_flat c name (m + 1)
    (fun t p => analyzeStruct (m + 2) c t p) (c.senv name) hflat hdepth

/-- Claim C8 is false as stated: over `{ Items []string }` with the single
key `ITEMS_5` present (an index beyond the slice length), the first Load
appends one element at slot 0, and a second Load on the result — the
environment unchanged — appends again, yielding `["x", "x"]` instead of the
single-Load result `["x"]`.  Out-of-range sequence indices are re-appended
on every call, so Load is not idempotent. -/
theorem c8_counterexample :
    ¬(load 40 (itemsCtx [("ITEMS_5", "x")]) (.strukt "T")
        (load 40 (itemsCtx [("ITEMS_5", "x")]) (.strukt "T")
          (zeroValue 40 (itemsCtx [("ITEMS_5", "x")]) (.strukt "T"))).1 =
      load 40 (itemsCtx [("ITEMS_5", "x")]) (.strukt "T")
        (zeroValue 40 (itemsCtx [("ITEMS_5", "x")]) (.strukt "T"))) := by
  intro h
  have h2 : (GoValue.vstruct [("Items", GoValue.vslice [GoValue.vstr "x", GoValue.vstr "x"])],
      (none : Option Err)) =
    (GoValue.vstruct [("Items", GoValue.vslice [GoValue.vstr "x"])], (none : Option Err)) := h
  simp at h2

/-- Claim C8, amended: idempotence does hold on the fragment where every
field of the record is a plain scalar (no tag, not embedded) and every
registered setter is value-oblivious (its result depends only on the
incoming string, as all the setters the library ships are): on any
well-shaped struct value, running Load a second time with the same
environment reproduces the first result exactly — final value and error
alike.  (The general claim fails on variable-length sequences, see the
counterexample.) -/
theorem c8_amended_idempotence (c : Ctx) (name : String) (m : Nat)
    (fvs : List (String × GoValue))
    (hflat : ∀ f ∈ c.senv name,
      f.anonymous = false ∧ f.tag = none ∧ isScalarKind f.type = true)
    (hnodup : ((c.senv name).map (fun g => g.name)).Nodup)
    (hdepth : 1 ≤ c.maxDepth)
    (hobliv : ∀ t st s v w, c.setters t = some st → st s v = st s w)
    (hshape : fvs.map (fun p => p.1) = (c.senv name).map (fun g => g.name)) :
    load (m + 3) c (.strukt name) (load (m + 3) c (.strukt name) (.vstruct fvs)).1 =
      load (m + 3) c (.strukt name) (.vstruct fvs) := by
  have hA := analyzeStruct_flat c name m hflat hdepth
  have hpaths : ∀ v ∈ flatValues c (c.senv name), ∃ f ∈ c.senv name, v.path = [f.name] :=
    fun v hv => flatValues_paths c (c.senv name) v hv
  have h1 : load (m + 3) c (.strukt name) (.vstruct fvs) =
      (.vstruct (runFvs c (c.senv name) (flatValues c (c.senv name)) fvs).1,
        (runFvs c (c.senv name) (flatValues c (c.senv name)) fvs).2) := by
    simp only [load, hA]
    exact assignValues_flat_sim c name m hflat hnodup hobliv
      (flatValues c (c.senv name)) fvs hpaths hshape
  have hshape' : ((runFvs c (c.senv name) (flatValues c (c.senv name)) fvs).1).map
        (fun p => p.1) = (c.senv name).map (fun g => g.name) := by
    rw [runFvs_fst_map]
    exact hshape
  have h2 : load (m + 3) c (.strukt name)
        (.vstruct (runFvs c (c.senv name) (flatValues c (c.senv name)) fvs).1) =
      (.vstruct (runFvs c (c.senv name) (flatValues c (c.senv name))
          (runFvs c (c.senv name) (flatValues c (c.senv name)) fvs).1).1,
        (runFvs c (c.senv name) (flatValues c (c.senv name))
          (runFvs c (c.senv name) (flatValues c (c.senv name)) fvs).1).2) := by
    simp only [load, hA]
    exact assignValues_flat_sim c name m hflat hnodup hobliv
      (flatValues c (c.senv name)) _ hpaths hshape'
  have hnodup' : (fvs.map (fun p => p.1)).Nodup := by
    rw [hshape]
    exact hnodup
  have hidem := runFvs_idem c (c.senv name) (flatValues c (c.senv name)) fvs hnodup'
  have hfst1 : (load (m + 3) c (.strukt name) (.vstruct fvs)).1 =
      .vstruct (runFvs c (c.senv name) (flatValues c (c.senv name)) fvs).1 := by
    rw [h1]
  rw [hfst1, h2, hidem, h1]

/-- A flat one-field record `{ Name string }`. -/
def flatC8Senv : String → List StructField := fun n =>
  if n = "Cfg" then [⟨"Name", .tString, false, none⟩] else []

/-- A loader over `{ Name string }` with `NAME` present. -/
def flatC8Ctx : Ctx :=
  { pfx := "", separator := "_", setters := stringOnlySetters, maxDepth := 10,
    senv := flatC8Senv, env := [("NAME", "joe")] }

theorem c8_amended_idempotence_witness :
    load 10 flatC8Ctx (.strukt "Cfg")
        (load 10 flatC8Ctx (.strukt "Cfg") (.vstruct [("Name", .vstr "")])).1 =
      load 10 flatC8Ctx (.strukt "Cfg") (.vstruct [("Name", .vstr "")]) :=
  c8_amended_idempotence flatC8Ctx "Cfg" 7 [("Name", .vstr "")]
    (by
      intro f hf
      have hf' : f ∈ [(⟨"Name", GoType.tString, false, none⟩ : StructField)] := hf
      rw [List.mem_singleton] at hf'
      subst hf'
      exact ⟨rfl, rfl, rfl⟩)
    (by decide)
    (by decide)
    (by
      intro t st s v w h
      cases t <;> first
        | (exact Option.noConfusion (show (none : Option Setter) = some st from h))
        | (have h' : some stringSetter = some st := h
           injection h' with h'
           rw [← h']
           rfl))
    (by decide)
